import Mathlib

/-!
Shallow embedding of the `sw_battle_test` turn-based battle simulation core
(src/Core): positions, capability strategies (health, movement, attack, AI),
the map, the world orchestration and the simulation driver, together with
theorems checking the natural-language specification against this embedding.

C++ machine integers: `UnitId`, coordinates, hp, damages and ranges are
`uint32_t` values that stay far below `2^32` in every scenario the engine
handles (damage arithmetic is done in `int` after explicit casts), so they are
modelled as `Nat`, with the signed damage arithmetic of `BasicHealthStrategy`
modelled as `Int` exactly as the source stores `_hp` as `int`.

The process-lifetime random engine used for enemy shuffling is modelled as an
explicit parameter `σ : List Nat → List Nat` applied to the gathered enemy-id
list; theorems quantify over it.
-/

namespace SwBattle

/-- `Position` from Core/Types.hpp: unsigned grid cell. -/
structure Position where
  x : Nat
  y : Nat
deriving DecidableEq, Repr

/-- `Position::distanceTo`: Chebyshev distance, computed on signed casts. -/
def distanceTo (a b : Position) : Nat :=
  max (Int.natAbs ((a.x : Int) - (b.x : Int))) (Int.natAbs ((a.y : Int) - (b.y : Int)))

/-- `Position::isWithin`: strict bounds check. -/
def isWithin (p : Position) (mapWidth mapHeight : Nat) : Bool :=
  p.x < mapWidth && p.y < mapHeight

/-- `AttackType` from Core/Types.hpp. -/
inductive AttackType
  | Melee
  | Ranged
deriving DecidableEq, Repr

/-- The two concrete attack strategies of Core/Strategies/AttackStrategies.cpp,
as a closed datatype: `MeleeAttackStrategy` carries its damage,
`RangedAttackStrategy` carries damage, min/max range and the
adjacency-clearance flag. -/
inductive AttackStrat
  | melee (damage : Nat)
  | ranged (damage minRange maxRange : Nat) (requireClearAdjacency : Bool)
deriving DecidableEq, Repr

/-- `IAttackStrategy::type`. -/
def AttackStrat.type : AttackStrat → AttackType
  | .melee _ => .Melee
  | .ranged _ _ _ _ => .Ranged

/-- `createRangedAttack`: the constructor clamps `_maxRange` to
`max(minRange, maxRange)`. -/
def createRangedAttack (damage minRange maxRange : Nat) (requireClearAdjacency : Bool) :
    AttackStrat :=
  .ranged damage minRange (max minRange maxRange) requireClearAdjacency

/-! `BasicHealthStrategy` (Core/Strategies/HealthStrategies.cpp): the internal
counter `_hp` is a C++ `int`, modelled as `Int`. -/

/-- `BasicHealthStrategy::isAlive`. -/
def healthIsAlive (hp : Int) : Bool := 0 < hp

/-- `BasicHealthStrategy::hitPoints`: floors the display value at 0. -/
def healthHitPoints (hp : Int) : Nat :=
  if 0 < hp then hp.toNat else 0

/-- `BasicHealthStrategy::applyDamage`: no-op for `amount ≤ 0`, else clamps
the counter at 0. -/
def healthApplyDamage (hp amount : Int) : Int :=
  if amount ≤ 0 then hp else max 0 (hp - amount)

/-- `BasicHealthStrategy::heal`: no-op for amount 0, else additive. -/
def healthHeal (hp : Int) (amount : Nat) : Int :=
  if amount = 0 then hp else hp + (amount : Int)

/-- `BasicHealthStrategy::canBeAttackedBy`: always true. -/
def healthCanBeAttackedBy (_hp : Int) (_t : AttackType) : Bool := true

/-- `BasicHealthStrategy::getModifiedRange`: identity. -/
def healthGetModifiedRange (_hp : Int) (range : Nat) (_t : AttackType) : Nat := range

/-- The AI strategies of Core/Strategies/AIStrategies.cpp as a closed tag. -/
inductive AIKind
  | Swordsman
  | Hunter
deriving DecidableEq, Repr

/-- `Entity` (Core/Entity.hpp): id, position, type label, and the four
optional capability slots.  The only health strategy is `BasicHealthStrategy`
(slot = its `Int` counter); the only movement strategy is
`TerrainMovementStrategy` (slot = its step size). -/
structure Entity where
  id : Nat
  pos : Position
  typeName : String
  health : Option Int := none
  movementStep : Option Nat := none
  attacks : List AttackStrat := []
  ai : Option AIKind := none
deriving DecidableEq, Repr

/-- `Entity::isAlive`: delegates to health; no health component = immortal. -/
def Entity.isAlive (e : Entity) : Bool :=
  match e.health with
  | some hp => healthIsAlive hp
  | none => true

/-- `Entity::blocksGround`: `TerrainMovementStrategy::blocksGround` is true;
default is true when no movement strategy. -/
def Entity.blocksGround (e : Entity) : Bool :=
  match e.movementStep with
  | some _ => true
  | none => true

/-! Association lists model the C++ `std::unordered_map` containers
(unique keys; `operator[]=` updates in place or inserts). -/

/-- Lookup in an association list (first matching key). -/
def lookupA {α : Type} : List (Nat × α) → Nat → Option α
  | [], _ => none
  | (k, v) :: t, id => if k = id then some v else lookupA t id

/-- `map[id] = v`: update the entry in place, or append a fresh one. -/
def setA {α : Type} : List (Nat × α) → Nat → α → List (Nat × α)
  | [], id, v => [(id, v)]
  | (k, w) :: t, id, v => if k = id then (id, v) :: t else (k, w) :: setA t id v

/-- `map.erase(id)`. -/
def eraseA {α : Type} : List (Nat × α) → Nat → List (Nat × α)
  | [], _ => []
  | (k, w) :: t, id => if k = id then eraseA t id else (k, w) :: eraseA t id

/-- `std::set` insert (no duplicates). -/
def insertS (l : List Nat) (id : Nat) : List Nat :=
  if l.contains id then l else l ++ [id]

/-- `Map` (Core/Map.hpp/.cpp): fixed dimensions, unit-id → position mapping,
set of ground-blocked cells. -/
structure Map where
  width : Nat
  height : Nat
  unitPositions : List (Nat × Position) := []
  blockedPositions : List Position := []
deriving DecidableEq, Repr

/-- `Map::isValidPosition`. -/
def Map.isValidPosition (m : Map) (p : Position) : Bool :=
  isWithin p m.width m.height

/-- `Map::getUnitAt`: linear scan for any unit at `pos`. -/
def Map.getUnitAt (m : Map) (pos : Position) : Option Nat :=
  go m.unitPositions
where
  go : List (Nat × Position) → Option Nat
    | [] => none
    | (k, q) :: t => if q = pos then some k else go t

/-- The grid position recorded for `id` (`_unitPositions.find(id)`). -/
def Map.lookupPos (m : Map) (id : Nat) : Option Position :=
  lookupA m.unitPositions id

/-- `Map::blocksAt`. -/
def Map.blocksAt (m : Map) (pos : Position) : Bool :=
  m.blockedPositions.contains pos

/-- `Map::isPositionOccupiedBy`. -/
def Map.isPositionOccupiedBy (m : Map) (pos : Position) (id : Nat) : Bool :=
  match m.lookupPos id with
  | some q => q = pos
  | none => false

/-- `Map::setPositionBlocked`. -/
def Map.setPositionBlocked (m : Map) (pos : Position) (blocked : Bool) : Map :=
  if blocked then
    { m with blockedPositions :=
        if m.blockedPositions.contains pos then m.blockedPositions
        else m.blockedPositions ++ [pos] }
  else
    { m with blockedPositions := m.blockedPositions.filter (fun q => q ≠ pos) }

/-- `Map::placeUnit`: fails (`none`) when out of bounds, cell occupied, or a
blocking placement on an already-blocked cell. -/
def Map.placeUnit (m : Map) (id : Nat) (pos : Position) (blocksGround : Bool) : Option Map :=
  if !m.isValidPosition pos then none
  else if (m.getUnitAt pos).isSome then none
  else if blocksGround && m.blocksAt pos then none
  else
    let m := { m with unitPositions := setA m.unitPositions id pos }
    some (if blocksGround then m.setPositionBlocked pos true else m)

/-- `Map::removeUnit`: clears the entry and unblocks its former cell. -/
def Map.removeUnit (m : Map) (id : Nat) : Map :=
  match m.lookupPos id with
  | none => m
  | some pos =>
    { m with
      blockedPositions := m.blockedPositions.filter (fun q => q ≠ pos),
      unitPositions := eraseA m.unitPositions id }

/-- `Map::moveUnit`: fails for unknown id, invalid destination, or a
destination occupied by a different unit; on success unblocks the old cell
only (the caller reapplies blocking at the destination). -/
def Map.moveUnit (m : Map) (id : Nat) (newPos : Position) : Option Map :=
  match m.lookupPos id with
  | none => none
  | some oldPos =>
    if !m.isValidPosition newPos then none
    else
      match m.getUnitAt newPos with
      | some occ =>
        if occ ≠ id then none
        else some
          { m with
            blockedPositions := m.blockedPositions.filter (fun q => q ≠ oldPos),
            unitPositions := setA m.unitPositions id newPos }
      | none => some
          { m with
            blockedPositions := m.blockedPositions.filter (fun q => q ≠ oldPos),
            unitPositions := setA m.unitPositions id newPos }

/-- The outbound events of the core (IO/Events, fields as assigned in
World.cpp / Simulation.cpp). -/
inductive Event
  | mapCreated (width height : Nat)
  | unitSpawned (unitId : Nat) (unitType : String) (x y : Nat)
  | unitMoved (unitId x y : Nat)
  | unitAttacked (attackerUnitId targetUnitId : Nat) (damage : Int) (targetHp : Nat)
  | unitDied (unitId : Nat)
  | marchStarted (unitId x y targetX targetY : Nat)
  | marchEnded (unitId x y : Nat)
  | simulationStarted (unitCount turn : Nat)
  | simulationEnded (finalTurn survivors totalTurns : Nat)
deriving DecidableEq, Repr

/-- `World` (Core/World.hpp): map, entity registry, append-only turn order,
pending-removal set and the ordered event sink (modelled as the list of
`(turn, event)` pairs emitted so far). -/
structure World where
  map : Map
  entities : List (Nat × Entity) := []
  entityOrder : List Nat := []
  pendingRemoval : List Nat := []
  eventLog : List (Nat × Event) := []
deriving DecidableEq, Repr

/-- `World::getEntity`. -/
def World.getEntity (w : World) (id : Nat) : Option Entity :=
  lookupA w.entities id

/-- `EventLog::log`: append one event tagged with a turn number. -/
def World.logEvent (w : World) (turn : Nat) (e : Event) : World :=
  { w with eventLog := w.eventLog ++ [(turn, e)] }

/-- Replace the stored entity for `id` (C++ mutates the registry's object
through a reference). -/
def World.setEntity (w : World) (id : Nat) (e : Entity) : World :=
  { w with entities := setA w.entities id e }

/-- `World::addEntity`: placement failure throws (`Except.error`); success
registers the entity (`unordered_map::emplace` keeps an existing entry),
appends to turn order and emits `UNIT_SPAWNED` at turn 1. -/
def World.addEntity (w : World) (e : Entity) : Except String World :=
  match w.map.placeUnit e.id e.pos e.blocksGround with
  | none => .error "failed to place entity on map"
  | some m =>
    let entities :=
      if (lookupA w.entities e.id).isSome then w.entities else w.entities ++ [(e.id, e)]
    let w := { w with map := m, entities := entities, entityOrder := w.entityOrder ++ [e.id] }
    .ok (w.logEvent 1 (.unitSpawned e.id e.typeName e.pos.x e.pos.y))

/-- `World::removeEntity`: unconditionally removes from grid, registry, turn
order and pending-removal set. -/
def World.removeEntity (w : World) (id : Nat) : World :=
  { w with
    map := w.map.removeUnit id,
    entities := eraseA w.entities id,
    entityOrder := w.entityOrder.filter (fun k => k ≠ id),
    pendingRemoval := w.pendingRemoval.filter (fun k => k ≠ id) }

/-- `World::scheduleRemoval`. -/
def World.scheduleRemoval (w : World) (id : Nat) : World :=
  { w with pendingRemoval := insertS w.pendingRemoval id }

/-- `World::flushPendingRemovals`: copy the set, clear it, remove each id. -/
def World.flushPendingRemovals (w : World) : World :=
  let toRemove := w.pendingRemoval
  let w := { w with pendingRemoval := [] }
  toRemove.foldl World.removeEntity w

/-- `World::tryMove` (taking the acting entity by id; every caller passes an
entity stored in the registry). -/
def World.tryMove (w : World) (id : Nat) (destination : Position) (turn : Nat)
    (ignoreBlocking : Bool) : Bool × World :=
  match w.getEntity id with
  | none => (false, w)
  | some e =>
    if !e.isAlive then (false, w)
    else if e.pos = destination then (false, w)
    else if !w.map.isValidPosition destination then (false, w)
    else if !ignoreBlocking && w.map.blocksAt destination
        && !w.map.isPositionOccupiedBy destination id then (false, w)
    else
      match w.map.moveUnit id destination with
      | none => (false, w)
      | some m =>
        let m := if e.blocksGround then m.setPositionBlocked destination true else m
        let w := { w with map := m }
        let w := w.setEntity id { e with pos := destination }
        (true, w.logEvent turn (.unitMoved id destination.x destination.y))

/-- `World::applyDamage` (attacker and target by id; both are registry
entities at every call site). -/
def World.applyDamage (w : World) (attackerId targetId : Nat) (damage : Int) (turn : Nat) :
    World :=
  if damage ≤ 0 then w
  else
    match w.getEntity targetId with
    | none => w
    | some t =>
      match t.health with
      | none => w
      | some hp =>
        if !healthIsAlive hp then w
        else
          let hp := healthApplyDamage hp damage
          let w := w.setEntity targetId { t with health := some hp }
          let w := w.logEvent turn (.unitAttacked attackerId targetId damage (healthHitPoints hp))
          if !healthIsAlive hp then
            (w.logEvent turn (.unitDied targetId)).scheduleRemoval targetId
          else w

/-- The 8 neighbor offsets scanned by `hasClearAdjacency`
(dx = -1..1, dy = -1..1, skipping (0,0)). -/
def neighborOffsets : List (Int × Int) :=
  [(-1, -1), (-1, 0), (-1, 1), (0, -1), (0, 1), (1, -1), (1, 0), (1, 1)]

/-- `hasClearAdjacency` (AttackStrategies.cpp): all eight neighbor cells of
the attacker must be free of other living entities. -/
def hasClearAdjacency (w : World) (selfId : Nat) (selfPos : Position) : Bool :=
  neighborOffsets.all fun (d : Int × Int) =>
    let nx : Int := (selfPos.x : Int) + d.1
    let ny : Int := (selfPos.y : Int) + d.2
    if nx < 0 || ny < 0 then true
    else
      let neighbor : Position := ⟨nx.toNat, ny.toNat⟩
      if !w.map.isValidPosition neighbor then true
      else
        match w.map.getUnitAt neighbor with
        | none => true
        | some occ =>
          if occ = selfId then true
          else
            match w.getEntity occ with
            | none => true
            | some occupant => !occupant.isAlive

/-- `MeleeAttackStrategy::attack` / `RangedAttackStrategy::attack`
(attacker and target by id; both are registry entities at every call site). -/
def AttackStrat.attack (a : AttackStrat) (w : World) (selfId targetId : Nat) (turn : Nat) :
    Bool × World :=
  match w.getEntity selfId, w.getEntity targetId with
  | some self, some target =>
    match a with
    | .melee damage =>
      if !target.isAlive then (false, w)
      else if distanceTo self.pos target.pos ≠ 1 then (false, w)
      else (true, w.applyDamage selfId targetId (damage : Int) turn)
    | .ranged damage minRange maxRange requireClearAdjacency =>
      if !target.isAlive then (false, w)
      else if requireClearAdjacency && !hasClearAdjacency w selfId self.pos then (false, w)
      else
        let veto :=
          match target.health with
          | some hp => !healthCanBeAttackedBy hp .Ranged
          | none => false
        if veto then (false, w)
        else
          let dist := distanceTo self.pos target.pos
          let effectiveMinRange :=
            match target.health with
            | some hp => healthGetModifiedRange hp minRange .Ranged
            | none => minRange
          let effectiveMaxRange :=
            match target.health with
            | some hp => healthGetModifiedRange hp maxRange .Ranged
            | none => maxRange
          if dist < effectiveMinRange || dist > effectiveMaxRange then (false, w)
          else (true, w.applyDamage selfId targetId (damage : Int) turn)
  | _, _ => (false, w)

/-- The filtered attempt loop inside `World::executeAttack` (the lambda
`attempt`): try each attack of the preferred type in declaration order, first
success wins.  Also returns the list of attack types actually attempted (one
entry per `attack->attack(...)` call, in call order). -/
def attemptAttacksFiltered (w : World) (selfId targetId turn : Nat) (filter : AttackType) :
    List AttackStrat → Bool × World × List AttackType
  | [] => (false, w, [])
  | a :: rest =>
    if a.type ≠ filter then attemptAttacksFiltered w selfId targetId turn filter rest
    else
      let (ok, w') := a.attack w selfId targetId turn
      if ok then (true, w', [a.type])
      else
        let (ok2, w2, tr) := attemptAttacksFiltered w' selfId targetId turn filter rest
        (ok2, w2, a.type :: tr)

/-- The unfiltered fallback loop of `World::executeAttack`: try every attack
the attacker owns in declaration order, first success wins (with the attempt
trace). -/
def attemptAttacks (w : World) (selfId targetId turn : Nat) :
    List AttackStrat → Bool × World × List AttackType
  | [] => (false, w, [])
  | a :: rest =>
    let (ok, w') := a.attack w selfId targetId turn
    if ok then (true, w', [a.type])
    else
      let (ok2, w2, tr) := attemptAttacks w' selfId targetId turn rest
      (ok2, w2, a.type :: tr)

/-- `World::executeAttack`: the preferred-type pass (when a preference is
given) followed, if it yields nothing, by the pass over every attack.  The
third component is the trace of attempted attack types. -/
def World.executeAttack (w : World) (attackerId targetId turn : Nat)
    (preferred : Option AttackType) : Bool × World × List AttackType :=
  match w.getEntity attackerId with
  | none => (false, w, [])
  | some attacker =>
    let pref :=
      match preferred with
      | some p => attemptAttacksFiltered w attackerId targetId turn p attacker.attacks
      | none => (false, w, [])
    if pref.1 then pref
    else
      let (ok, w2, tr2) := attemptAttacks pref.2.1 attackerId targetId turn attacker.attacks
      (ok, w2, pref.2.2 ++ tr2)

/-! Movement (Core/Strategies/MovementStrategies.cpp). -/

/-- The per-axis step direction: `if (d != 0) d = (d > 0) ? 1 : -1`. -/
def sgn (d : Int) : Int :=
  if d = 0 then 0 else if 0 < d then 1 else -1

/-- The `for (i = 0; i < step; ++i)` loop of `stepTowards`: add the per-axis
directions until both coordinates equal the target or the fuel runs out. -/
def stepLoop (tx ty : Nat) (dx dy : Int) : Nat → Int → Int → Int × Int
  | 0, nx, ny => (nx, ny)
  | k + 1, nx, ny =>
    if nx = (tx : Int) ∧ ny = (ty : Int) then (nx, ny)
    else stepLoop tx ty dx dy k (nx + dx) (ny + dy)

/-- `stepTowards` (anonymous namespace of MovementStrategies.cpp). -/
def stepTowards (fromPos target : Position) (step : Nat) : Position :=
  if fromPos = target then fromPos
  else
    let dx := sgn ((target.x : Int) - (fromPos.x : Int))
    let dy := sgn ((target.y : Int) - (fromPos.y : Int))
    let r := stepLoop target.x target.y dx dy step (fromPos.x : Int) (fromPos.y : Int)
    ⟨(max r.1 0).toNat, (max r.2 0).toNat⟩

/-- `TerrainMovementStrategy::move` (the entity's stored step size is passed
explicitly). -/
def terrainMove (w : World) (selfId step : Nat) (target : Position) (turn : Nat) :
    Bool × World :=
  match w.getEntity selfId with
  | none => (false, w)
  | some self =>
    if self.pos = target || step = 0 then (false, w)
    else
      let distance := distanceTo self.pos target
      if distance > step then
        w.tryMove selfId (stepTowards self.pos target step) turn false
      else
        w.tryMove selfId target turn false

/-- `World::moveEntityTowards`: delegates to the entity's movement strategy if
present, else no-op. -/
def World.moveEntityTowards (w : World) (id : Nat) (target : Position) (turn : Nat) :
    Bool × World :=
  match w.getEntity id with
  | none => (false, w)
  | some e =>
    match e.movementStep with
    | none => (false, w)
    | some step => terrainMove w id step target turn

/-! AI (Core/Strategies/AIStrategies.cpp).  The shared random engine is
modelled as an explicit shuffle parameter `σ` applied to the gathered
enemy-id list. -/

/-- `detail::gatherEnemies`: all other living registry entities, then
shuffled. -/
def gatherEnemies (σ : List Nat → List Nat) (w : World) (selfId : Nat) : List Nat :=
  σ ((w.entities.filter (fun p => p.1 ≠ selfId && p.2.isAlive)).map (fun p => p.1))

/-- `detail::findNearestEnemy`: keep the first strictly-closer candidate
(`bestDist` starts at `uint32_t` max). -/
def findNearestEnemy (w : World) (selfPos : Position) (enemies : List Nat) : Option Nat :=
  go enemies none 4294967295
where
  go : List Nat → Option Nat → Nat → Option Nat
    | [], nearest, _ => nearest
    | e :: rest, nearest, bestDist =>
      match w.getEntity e with
      | none => go rest nearest bestDist
      | some enemy =>
        let dist := distanceTo selfPos enemy.pos
        if dist < bestDist then go rest (some e) dist
        else go rest nearest bestDist

/-- One preference pass of an AI update: `executeAttack` with the given
preferred type against each enemy in order, stopping at the first success.
The trace tags each attempted attack type with the enemy it targeted. -/
def tryAttackList (w : World) (selfId turn : Nat) (pref : AttackType) :
    List Nat → Bool × World × List (Nat × AttackType)
  | [] => (false, w, [])
  | e :: rest =>
    let (ok, w', tr) := w.executeAttack selfId e turn (some pref)
    let tagged := tr.map (fun t => (e, t))
    if ok then (true, w', tagged)
    else
      let (ok2, w2, tr2) := tryAttackList w' selfId turn pref rest
      (ok2, w2, tagged ++ tr2)

/-- The approach-movement fallback shared by both AI strategies. -/
def approachNearest (w : World) (selfId turn : Nat) (enemies : List Nat) : Bool × World :=
  match w.getEntity selfId with
  | none => (false, w)
  | some self =>
    match findNearestEnemy w self.pos enemies with
    | none => (false, w)
    | some nid =>
      match w.getEntity nid with
      | none => (false, w)
      | some nearest => w.moveEntityTowards selfId nearest.pos turn

/-- `SwordsmanAIStrategy::update` on an already-gathered enemy list (with the
attack-attempt trace). -/
def swordsmanUpdate (w : World) (selfId turn : Nat) (enemies : List Nat) :
    Bool × World × List (Nat × AttackType) :=
  let (ok, w1, tr1) := tryAttackList w selfId turn .Melee enemies
  if ok then (true, w1, tr1)
  else
    let (moved, w2) := approachNearest w1 selfId turn enemies
    (moved, w2, tr1)

/-- `HunterAIStrategy::update` on an already-gathered enemy list (with the
attack-attempt trace): ranged pass, then melee pass, then approach. -/
def hunterUpdate (w : World) (selfId turn : Nat) (enemies : List Nat) :
    Bool × World × List (Nat × AttackType) :=
  let (ok1, w1, tr1) := tryAttackList w selfId turn .Ranged enemies
  if ok1 then (true, w1, tr1)
  else
    let (ok2, w2, tr2) := tryAttackList w1 selfId turn .Melee enemies
    if ok2 then (true, w2, tr1 ++ tr2)
    else
      let (moved, w3) := approachNearest w2 selfId turn enemies
      (moved, w3, tr1 ++ tr2)

/-- `IAIStrategy::update` dispatch: gather-and-shuffle enemies, then run the
archetype behavior. -/
def aiUpdate (σ : List Nat → List Nat) (w : World) (selfId turn : Nat) : Bool × World :=
  match w.getEntity selfId with
  | none => (false, w)
  | some self =>
    match self.ai with
    | none => (false, w)
    | some kind =>
      let enemies := gatherEnemies σ w selfId
      match kind with
      | .Swordsman =>
        let r := swordsmanUpdate w selfId turn enemies
        (r.1, r.2.1)
      | .Hunter =>
        let r := hunterUpdate w selfId turn enemies
        (r.1, r.2.1)

/-! Simulation driver (Core/Simulation.cpp). -/

/-- `MarchCommand` (Core/Simulation.hpp). -/
structure MarchCommand where
  unitId : Nat
  x : Nat
  y : Nat
deriving DecidableEq, Repr

/-- `Simulation`: world, current turn (starting at 1), march-target table. -/
structure Simulation where
  world : World
  currentTurn : Nat := 1
  marchTargets : List (Nat × Position) := []
deriving DecidableEq, Repr

/-- `makeSwordsman` (Core/Prefabs.hpp). -/
def makeSwordsman (id : Nat) (pos : Position) (hp strength : Nat) : Entity :=
  { id := id, pos := pos, typeName := "Swordsman",
    health := some (hp : Int), movementStep := some 1,
    attacks := [.melee strength], ai := some .Swordsman }

/-- `makeHunter` (Core/Prefabs.hpp): melee (strength) plus ranged (agility,
band `[2, range]`, adjacency clearance required). -/
def makeHunter (id : Nat) (pos : Position) (hp agility strength range : Nat) : Entity :=
  { id := id, pos := pos, typeName := "Hunter",
    health := some (hp : Int), movementStep := some 1,
    attacks := [.melee strength, createRangedAttack agility 2 range true],
    ai := some .Hunter }

/-- `Simulation::createMap`: reset the world (fresh log, `MAP_CREATED` at
turn 1), clear march targets, turn back to 1. -/
def Simulation.createMap (_s : Simulation) (width height : Nat) : Bool × Simulation :=
  (true,
    { world :=
        { map := { width := width, height := height },
          eventLog := [(1, .mapCreated width height)] },
      currentTurn := 1,
      marchTargets := [] })

/-- `Simulation::spawnSwordsman`: boolean failure on duplicate id; otherwise
delegates to `World::addEntity` (whose placement failure throws). -/
def Simulation.spawnSwordsman (s : Simulation) (unitId x y hp strength : Nat) :
    Except String (Bool × Simulation) :=
  if (s.world.getEntity unitId).isSome then .ok (false, s)
  else
    match s.world.addEntity (makeSwordsman unitId ⟨x, y⟩ hp strength) with
    | .error msg => .error msg
    | .ok w => .ok (true, { s with world := w })

/-- `Simulation::spawnHunter`: boolean failure on duplicate id; otherwise
delegates to `World::addEntity` (whose placement failure throws). -/
def Simulation.spawnHunter (s : Simulation) (unitId x y hp agility strength range : Nat) :
    Except String (Bool × Simulation) :=
  if (s.world.getEntity unitId).isSome then .ok (false, s)
  else
    match s.world.addEntity (makeHunter unitId ⟨x, y⟩ hp agility strength range) with
    | .error msg => .error msg
    | .ok w => .ok (true, { s with world := w })

/-- `Simulation::executeMarch`: unknown unit or invalid target → false;
otherwise upsert the march table and log `MARCH_STARTED` at the current
turn. -/
def Simulation.executeMarch (s : Simulation) (command : MarchCommand) : Bool × Simulation :=
  match s.world.getEntity command.unitId with
  | none => (false, s)
  | some entity =>
    let target : Position := ⟨command.x, command.y⟩
    if !s.world.map.isValidPosition target then (false, s)
    else
      let s := { s with marchTargets := setA s.marchTargets command.unitId target }
      let event := Event.marchStarted command.unitId entity.pos.x entity.pos.y target.x target.y
      let s := { s with world := s.world.logEvent s.currentTurn event }
      (true, s)

/-- `Simulation::setMarchTarget`: identical to `executeMarch` except the
`MARCH_STARTED` event is logged at turn 1 ("during setup"). -/
def Simulation.setMarchTarget (s : Simulation) (command : MarchCommand) : Bool × Simulation :=
  match s.world.getEntity command.unitId with
  | none => (false, s)
  | some entity =>
    let target : Position := ⟨command.x, command.y⟩
    if !s.world.map.isValidPosition target then (false, s)
    else
      let s := { s with marchTargets := setA s.marchTargets command.unitId target }
      let event := Event.marchStarted command.unitId entity.pos.x entity.pos.y target.x target.y
      let s := { s with world := s.world.logEvent 1 event }
      (true, s)

/-- Which branches of the per-unit body of `Simulation::processTurn` ran. -/
structure StepInfo where
  hadTarget : Bool := false
  marched : Bool := false
  marchCompleted : Bool := false
  aiInvoked : Bool := false
deriving DecidableEq, Repr

/-- The body of the per-unit loop of `Simulation::processTurn`: march step
(with march-completion handling) when a march target is active, then the AI
update when the march step produced no movement.  Returns the updated
simulation, this unit's `anyAction` contribution, and the branch record. -/
def processUnit (σ : List Nat → List Nat) (s : Simulation) (id : Nat) :
    Simulation × Bool × StepInfo :=
  match s.world.getEntity id with
  | none => (s, false, {})
  | some entity =>
    if !entity.isAlive then (s, false, {})
    else
      let marchStep :
          Simulation × Bool × StepInfo :=
        match lookupA s.marchTargets id with
        | none => (s, false, {})
        | some target =>
          let (marched, w') := s.world.moveEntityTowards id target s.currentTurn
          let s' := { s with world := w' }
          let posNow :=
            match s'.world.getEntity id with
            | some e' => e'.pos
            | none => entity.pos
          if posNow = target then
            let s'' := { s' with
              world := s'.world.logEvent s'.currentTurn (.marchEnded id posNow.x posNow.y),
              marchTargets := eraseA s'.marchTargets id }
            (s'', true, { hadTarget := true, marched := marched, marchCompleted := true })
          else
            (s', marched, { hadTarget := true, marched := marched })
      let (s1, any1, info) := marchStep
      if !info.marched then
        match s1.world.getEntity id with
        | none => (s1, any1, info)
        | some e1 =>
          if e1.ai.isSome && e1.isAlive then
            let (acted, w2) := aiUpdate σ s1.world id s1.currentTurn
            ({ s1 with world := w2 }, any1 || acted, { info with aiInvoked := true })
          else (s1, any1, info)
      else (s1, any1, info)

/-- `Simulation::processTurn`: sweep the (copied) turn order, accumulating
`anyAction`. -/
def Simulation.processTurn (σ : List Nat → List Nat) (s : Simulation) : Simulation × Bool :=
  s.world.entityOrder.foldl
    (fun acc id =>
      let (s', acted, _) := processUnit σ acc.1 id
      (s', acc.2 || acted))
    (s, false)

/-- `Simulation::cleanupMarchTargets`: purge march targets of missing or dead
units. -/
def Simulation.cleanupMarchTargets (s : Simulation) : Simulation :=
  { s with marchTargets :=
      s.marchTargets.filter fun p =>
        match s.world.getEntity p.1 with
        | none => false
        | some e => e.isAlive }

/-! ### Association-list lemmas -/

lemma lookupA_setA_self {α : Type} (l : List (Nat × α)) (id : Nat) (v : α) :
    lookupA (setA l id v) id = some v := by
  induction l with
  | nil => simp [setA, lookupA]
  | cons h t ih =>
    obtain ⟨k, w⟩ := h
    by_cases hk : k = id <;> simp [setA, lookupA, hk, ih]

lemma lookupA_setA_ne {α : Type} (l : List (Nat × α)) (id id' : Nat) (v : α)
    (h : id' ≠ id) : lookupA (setA l id v) id' = lookupA l id' := by
  induction l with
  | nil =>
    simp only [setA, lookupA]
    rw [if_neg (Ne.symm h)]
  | cons hd t ih =>
    obtain ⟨k, w⟩ := hd
    by_cases hk : k = id
    · subst hk
      simp only [setA, if_pos rfl, lookupA, if_neg (Ne.symm h)]
    · simp [setA, hk, lookupA, ih]

lemma lookupA_eraseA_self {α : Type} (l : List (Nat × α)) (id : Nat) :
    lookupA (eraseA l id) id = none := by
  induction l with
  | nil => simp [eraseA, lookupA]
  | cons hd t ih =>
    obtain ⟨k, w⟩ := hd
    by_cases hk : k = id <;> simp [eraseA, hk, lookupA, ih]

lemma lookupA_eraseA_ne {α : Type} (l : List (Nat × α)) (id id' : Nat)
    (h : id' ≠ id) : lookupA (eraseA l id) id' = lookupA l id' := by
  induction l with
  | nil => simp [eraseA, lookupA]
  | cons hd t ih =>
    obtain ⟨k, w⟩ := hd
    by_cases hk : k = id
    · subst hk
      simp [eraseA, lookupA, ih, Ne.symm h]
    · simp [eraseA, hk, lookupA, ih]

lemma lookupA_append_of_none {α : Type} (l1 l2 : List (Nat × α)) (id : Nat)
    (h : lookupA l1 id = none) : lookupA (l1 ++ l2) id = lookupA l2 id := by
  induction l1 with
  | nil => rfl
  | cons hd t ih =>
    obtain ⟨k, w⟩ := hd
    by_cases hk : k = id
    · simp [lookupA, hk] at h
    · rw [List.cons_append]
      simp only [lookupA, if_neg hk] at h ⊢
      exact ih h

lemma lookupA_append_of_isSome {α : Type} (l1 l2 : List (Nat × α)) (id : Nat)
    (h : (lookupA l1 id).isSome) : lookupA (l1 ++ l2) id = lookupA l1 id := by
  induction l1 with
  | nil => exact Bool.noConfusion h
  | cons hd t ih =>
    obtain ⟨k, w⟩ := hd
    by_cases hk : k = id
    · simp [lookupA, hk]
    · simp only [lookupA, hk, if_false] at h ⊢
      exact ih h

/-! ### World-level registry lemmas -/

lemma getEntity_setEntity_self (w : World) (id : Nat) (e : Entity) :
    (w.setEntity id e).getEntity id = some e := by
  simp [World.setEntity, World.getEntity, lookupA_setA_self]

lemma getEntity_setEntity_ne (w : World) (id id' : Nat) (e : Entity) (h : id' ≠ id) :
    (w.setEntity id e).getEntity id' = w.getEntity id' := by
  simp [World.setEntity, World.getEntity, lookupA_setA_ne _ _ _ _ h]

lemma getEntity_logEvent (w : World) (turn : Nat) (ev : Event) (id : Nat) :
    (w.logEvent turn ev).getEntity id = w.getEntity id := rfl

/-- `World::tryMove` only ever rewrites the mover's stored position. -/
lemma tryMove_getEntity_self (w : World) (id : Nat) (d : Position) (turn : Nat)
    (ib : Bool) (e : Entity) (h : w.getEntity id = some e) :
    ∃ p, ((w.tryMove id d turn ib).2).getEntity id = some { e with pos := p } := by
  obtain ⟨eid, epos, ename, ehp, emv, eat, eai⟩ := e
  unfold World.tryMove
  rw [h]
  dsimp only
  split
  · exact ⟨epos, h⟩
  · split
    · exact ⟨epos, h⟩
    · split
      · exact ⟨epos, h⟩
      · split
        · exact ⟨epos, h⟩
        · split
          · exact ⟨epos, h⟩
          · refine ⟨d, ?_⟩
            rw [getEntity_logEvent]
            exact getEntity_setEntity_self _ id _

/-- `terrainMove` only ever rewrites the mover's stored position. -/
lemma terrainMove_getEntity_self (w : World) (id step : Nat) (target : Position)
    (turn : Nat) (e : Entity) (h : w.getEntity id = some e) :
    ∃ p, ((terrainMove w id step target turn).2).getEntity id = some { e with pos := p } := by
  obtain ⟨eid, epos, ename, ehp, emv, eat, eai⟩ := e
  unfold terrainMove
  rw [h]
  dsimp only
  split
  · exact ⟨epos, h⟩
  · split
    · exact tryMove_getEntity_self w id _ turn false _ h
    · exact tryMove_getEntity_self w id target turn false _ h

/-- `World::moveEntityTowards` only ever rewrites the mover's stored
position. -/
lemma moveEntityTowards_getEntity_self (w : World) (id : Nat) (target : Position)
    (turn : Nat) (e : Entity) (h : w.getEntity id = some e) :
    ∃ p, ((w.moveEntityTowards id target turn).2).getEntity id = some { e with pos := p } := by
  obtain ⟨eid, epos, ename, ehp, emv, eat, eai⟩ := e
  unfold World.moveEntityTowards
  rw [h]
  dsimp only
  cases emv with
  | none => exact ⟨epos, h⟩
  | some step => exact terrainMove_getEntity_self w id step target turn _ h

/-! ### Health arithmetic lemmas -/

lemma healthApplyDamage_nonneg (c d : Int) (h : 0 ≤ c) : 0 ≤ healthApplyDamage c d := by
  unfold healthApplyDamage
  split
  · exact h
  · exact le_max_left 0 _

lemma foldl_healthApplyDamage_nonneg (ds : List Int) (c : Int) (h : 0 ≤ c) :
    0 ≤ List.foldl healthApplyDamage c ds := by
  induction ds generalizing c with
  | nil => exact h
  | cons d t ih => exact ih _ (healthApplyDamage_nonneg c d h)

lemma healthApplyDamage_zero (d : Int) : healthApplyDamage 0 d = 0 := by
  unfold healthApplyDamage
  split
  · rfl
  · exact max_eq_left (by omega)

lemma foldl_healthApplyDamage_zero (ds : List Int) :
    List.foldl healthApplyDamage 0 ds = 0 := by
  induction ds with
  | nil => rfl
  | cons d t ih => simpa [healthApplyDamage_zero] using ih

/-- C7: `BasicHealthStrategy::applyDamage` with amount ≤ 0 changes nothing;
the counter stays nonnegative under any damage sequence; a counter driven to
0 is not alive and is a fixed point of every further `applyDamage` call; the
displayed `hitPoints` equals the (never negative, never underflowed)
counter. -/
theorem basicHealth_damage_algebra (c d : Int) (hp0 : Nat) (ds ds₂ : List Int) :
    (d ≤ 0 → healthApplyDamage c d = c) ∧
    healthApplyDamage 0 d = 0 ∧
    healthIsAlive 0 = false ∧
    0 ≤ List.foldl healthApplyDamage (hp0 : Int) ds ∧
    (List.foldl healthApplyDamage (hp0 : Int) ds = 0 →
      healthIsAlive (List.foldl healthApplyDamage (hp0 : Int) ds) = false ∧
      List.foldl healthApplyDamage (List.foldl healthApplyDamage (hp0 : Int) ds) ds₂ = 0) ∧
    (healthHitPoints (List.foldl healthApplyDamage (hp0 : Int) ds) : Int)
      = List.foldl healthApplyDamage (hp0 : Int) ds := by
  refine ⟨?_, healthApplyDamage_zero d, rfl, ?_, ?_, ?_⟩
  · intro hd
    unfold healthApplyDamage
    exact if_pos hd
  · exact foldl_healthApplyDamage_nonneg ds _ (Int.natCast_nonneg hp0)
  · intro hz
    rw [hz]
    exact ⟨rfl, foldl_healthApplyDamage_zero ds₂⟩
  · have hnn := foldl_healthApplyDamage_nonneg ds (hp0 : Int) (Int.natCast_nonneg hp0)
    unfold healthHitPoints
    split
    · exact Int.toNat_of_nonneg hnn
    · omega

/-- C7 witness at concrete inputs. -/
theorem basicHealth_damage_algebra_witness :
    healthApplyDamage 5 (-3) = 5 ∧
    healthIsAlive (List.foldl healthApplyDamage ((10 : Nat) : Int) [4, 6]) = false := by
  have h := basicHealth_damage_algebra 5 (-3) 10 [4, 6] []
  exact ⟨h.1 (by decide), (h.2.2.2.2.1 (by decide)).1⟩

/-- C9: a basic-health counter driven dead (`isAlive` false) by damage is
resurrected by `heal(amount)` with positive amount: alive again with
`hitPoints` exactly `amount` (the damage clamp at 0 makes the dead counter
exactly 0). -/
theorem basicHealth_heal_resurrects (hp0 : Nat) (ds : List Int) (a : Nat)
    (hdead : healthIsAlive (List.foldl healthApplyDamage (hp0 : Int) ds) = false)
    (ha : 0 < a) :
    healthIsAlive (healthHeal (List.foldl healthApplyDamage (hp0 : Int) ds) a) = true ∧
    healthHitPoints (healthHeal (List.foldl healthApplyDamage (hp0 : Int) ds) a) = a := by
  have hnn := foldl_healthApplyDamage_nonneg ds (hp0 : Int) (Int.natCast_nonneg hp0)
  have hz : List.foldl healthApplyDamage (hp0 : Int) ds = 0 := by
    unfold healthIsAlive at hdead
    simp only [decide_eq_false_iff_not, not_lt] at hdead
    omega
  rw [hz]
  unfold healthHeal healthIsAlive healthHitPoints
  rw [if_neg (Nat.pos_iff_ne_zero.mp ha)]
  have hpos : (0 : Int) < 0 + (a : Int) := by
    have := Int.natCast_pos.mpr ha
    omega
  rw [if_pos hpos]
  refine ⟨by simp [hpos, ha], ?_⟩
  omega

/-- C9 witness: 10 hp, killed by a 10-damage hit, healed by 3. -/
theorem basicHealth_heal_resurrects_witness :
    healthIsAlive (healthHeal (List.foldl healthApplyDamage ((10 : Nat) : Int) [10]) 3) = true ∧
    healthHitPoints (healthHeal (List.foldl healthApplyDamage ((10 : Nat) : Int) [10]) 3) = 3 :=
  basicHealth_heal_resurrects 10 [10] 3 (by decide) (by decide)

/-! ### C1: invalid setup requests -/

/-- C1 (amended): a spawn with a duplicate unit id returns `false` and leaves
the simulation untouched; a spawn at an out-of-bounds position is NOT a
boolean failure — `World::addEntity` throws ("failed to place entity on
map") and the exception propagates out of the spawn operation. -/
theorem spawn_invalid_setup (s : Simulation) (unitId x y hp strength agility range : Nat) :
    ((s.world.getEntity unitId).isSome = true →
      s.spawnSwordsman unitId x y hp strength = .ok (false, s) ∧
      s.spawnHunter unitId x y hp agility strength range = .ok (false, s)) ∧
    (s.world.getEntity unitId = none →
      s.world.map.isValidPosition ⟨x, y⟩ = false →
      s.spawnSwordsman unitId x y hp strength = .error "failed to place entity on map" ∧
      s.spawnHunter unitId x y hp agility strength range
        = .error "failed to place entity on map") := by
  constructor
  · intro h
    constructor
    · unfold Simulation.spawnSwordsman
      rw [if_pos h]
    · unfold Simulation.spawnHunter
      rw [if_pos h]
  · intro h hv
    have hplace : ∀ b : Bool, s.world.map.placeUnit unitId (⟨x, y⟩ : Position) b = none := by
      intro b
      unfold Map.placeUnit
      rw [hv]
      rfl
    constructor
    · unfold Simulation.spawnSwordsman
      rw [if_neg (by simp [h])]
      unfold World.addEntity
      dsimp only [makeSwordsman]
      rw [hplace]
    · unfold Simulation.spawnHunter
      rw [if_neg (by simp [h])]
      unfold World.addEntity
      dsimp only [makeHunter]
      rw [hplace]

/-- The initial simulation state (default-constructed `Simulation`). -/
def sim0 : Simulation := { world := { map := { width := 0, height := 0 } } }

/-- A 2×2 map with no units. -/
def simC1 : Simulation := (sim0.createMap 2 2).2

/-- C1 counterexample: spawning a fresh swordsman at the out-of-bounds
position (5,5) of a 2×2 map does not return the boolean `false` — it
escalates as an exception from `World::addEntity`. -/
theorem spawn_oob_counterexample :
    simC1.spawnSwordsman 1 5 5 10 5 = .error "failed to place entity on map" := rfl

/-- C1 witness: the duplicate-id and out-of-bounds cases at concrete
inputs. -/
theorem spawn_invalid_setup_witness :
    (((simC1.spawnSwordsman 1 0 0 10 5).toOption.map Prod.snd).getD simC1).spawnSwordsman
        1 1 1 10 5
      = .ok (false, ((simC1.spawnSwordsman 1 0 0 10 5).toOption.map Prod.snd).getD simC1) ∧
    simC1.spawnHunter 2 5 5 10 3 2 5 = .error "failed to place entity on map" := by
  constructor
  · exact ((spawn_invalid_setup _ 1 1 1 10 5 0 0).1 (by decide)).1
  · exact ((spawn_invalid_setup simC1 2 5 5 10 3 2 5).2 (by decide) (by decide)).2

/-! ### C4: executeMarch vs setMarchTarget -/

/-- C4 (amended): the two march entry points succeed and fail identically,
produce the same march table and the same non-log state, and log a
`MARCH_STARTED` event with identical fields — but `executeMarch` tags it
with the current turn while `setMarchTarget` always tags turn 1, so the
logs coincide exactly when the current turn is 1. -/
theorem march_variants_equiv (s : Simulation) (cmd : MarchCommand) :
    (s.executeMarch cmd).1 = (s.setMarchTarget cmd).1 ∧
    (s.executeMarch cmd).2.marchTargets = (s.setMarchTarget cmd).2.marchTargets ∧
    (s.executeMarch cmd).2.currentTurn = (s.setMarchTarget cmd).2.currentTurn ∧
    (s.executeMarch cmd).2.world.map = (s.setMarchTarget cmd).2.world.map ∧
    (s.executeMarch cmd).2.world.entities = (s.setMarchTarget cmd).2.world.entities ∧
    (s.executeMarch cmd).2.world.eventLog.map Prod.snd
      = (s.setMarchTarget cmd).2.world.eventLog.map Prod.snd ∧
    (s.currentTurn = 1 → s.executeMarch cmd = s.setMarchTarget cmd) := by
  unfold Simulation.executeMarch Simulation.setMarchTarget
  cases hE : s.world.getEntity cmd.unitId with
  | none => simp
  | some entity =>
    dsimp only
    split
    · simp
    · refine ⟨rfl, rfl, rfl, rfl, rfl, ?_, ?_⟩
      · simp [World.logEvent]
      · intro h1
        rw [h1]

/-- A 4×4 world holding swordsman 1 at (0,0), at turn 5. -/
def simC4 : Simulation :=
  { world :=
      { map := { width := 4, height := 4,
                 unitPositions := [(1, ⟨0, 0⟩)], blockedPositions := [⟨0, 0⟩] },
        entities := [(1, makeSwordsman 1 ⟨0, 0⟩ 10 5)],
        entityOrder := [1] },
    currentTurn := 5 }

/-- C4 counterexample: at turn 5 both variants succeed, but the
`MARCH_STARTED` events carry different turn tags (5 vs 1), so the logged
event is not identical. -/
theorem march_variants_counterexample :
    (simC4.executeMarch ⟨1, 2, 2⟩).1 = true ∧
    (simC4.setMarchTarget ⟨1, 2, 2⟩).1 = true ∧
    (simC4.executeMarch ⟨1, 2, 2⟩).2.world.eventLog
      ≠ (simC4.setMarchTarget ⟨1, 2, 2⟩).2.world.eventLog := by
  refine ⟨rfl, rfl, ?_⟩
  decide

/-- C4 witness: the amended equivalence at a concrete turn-5 state. -/
theorem march_variants_equiv_witness :
    (simC4.executeMarch ⟨1, 2, 2⟩).1 = (simC4.setMarchTarget ⟨1, 2, 2⟩).1 ∧
    (simC4.executeMarch ⟨1, 2, 2⟩).2.marchTargets
      = (simC4.setMarchTarget ⟨1, 2, 2⟩).2.marchTargets :=
  ⟨(march_variants_equiv simC4 ⟨1, 2, 2⟩).1, (march_variants_equiv simC4 ⟨1, 2, 2⟩).2.1⟩

/-! ### C6 / C8: applyDamage and attacker liveness -/

/-- The full effect of `World::applyDamage` in the effective case (positive
damage, target present, with health, alive). -/
lemma applyDamage_effect (w : World) (aId tId : Nat) (dmg : Int) (turn : Nat)
    (t : Entity) (hp : Int)
    (hT : w.getEntity tId = some t) (hh : t.health = some hp)
    (halive : 0 < hp) (hdmg : 0 < dmg) :
    (w.applyDamage aId tId dmg turn).getEntity tId
      = some { t with health := some (healthApplyDamage hp dmg) } ∧
    (w.applyDamage aId tId dmg turn).map = w.map ∧
    (w.applyDamage aId tId dmg turn).entityOrder = w.entityOrder ∧
    (w.applyDamage aId tId dmg turn).eventLog
      = w.eventLog
        ++ (turn, Event.unitAttacked aId tId dmg (healthHitPoints (healthApplyDamage hp dmg)))
        :: (if healthIsAlive (healthApplyDamage hp dmg) then []
            else [(turn, Event.unitDied tId)]) ∧
    (w.applyDamage aId tId dmg turn).pendingRemoval
      = (if healthIsAlive (healthApplyDamage hp dmg) then w.pendingRemoval
         else insertS w.pendingRemoval tId) ∧
    (∀ id, id ≠ tId → (w.applyDamage aId tId dmg turn).getEntity id = w.getEntity id) := by
  have hnotle : ¬ dmg ≤ 0 := by omega
  have hAlive : healthIsAlive hp = true := by
    unfold healthIsAlive
    exact decide_eq_true halive
  unfold World.applyDamage
  rw [if_neg hnotle, hT]
  dsimp only
  rw [hh]
  dsimp only
  rw [hAlive]
  simp only [Bool.not_true, Bool.false_eq_true, if_false]
  cases hA' : healthIsAlive (healthApplyDamage hp dmg) with
  | true =>
    simp only [Bool.not_true, Bool.false_eq_true, if_false, if_true]
    refine ⟨getEntity_setEntity_self _ _ _, rfl, rfl, ?_, rfl, ?_⟩
    · simp [World.logEvent, World.setEntity]
    · intro id hid
      rw [getEntity_logEvent]
      exact getEntity_setEntity_ne _ _ _ _ hid
  | false =>
    simp only [Bool.not_false, if_true, if_false, Bool.false_eq_true]
    refine ⟨getEntity_setEntity_self _ _ _, rfl, rfl, ?_, rfl, ?_⟩
    · simp [World.logEvent, World.setEntity, World.scheduleRemoval]
    · intro id hid
      unfold World.scheduleRemoval
      rw [show ∀ (w' : World) (l : List Nat),
            ({ w' with pendingRemoval := l } : World).getEntity id = w'.getEntity id
          from fun _ _ => rfl]
      rw [getEntity_logEvent, getEntity_logEvent]
      exact getEntity_setEntity_ne _ _ _ _ hid

/-- C6: `World::applyDamage` is a silent no-op when damage ≤ 0, the target
has no Health, or the target is already dead; otherwise it applies the
damage, emits exactly one damage event carrying the resulting hp, and — when
the target thereby dies — additionally emits a death event and schedules the
target for deferred removal, leaving registry, grid and turn order
untouched during the call. -/
theorem applyDamage_contract (w : World) (aId tId : Nat) (dmg : Int) (turn : Nat)
    (t : Entity) (hT : w.getEntity tId = some t) :
    (dmg ≤ 0 → w.applyDamage aId tId dmg turn = w) ∧
    (t.health = none → w.applyDamage aId tId dmg turn = w) ∧
    (∀ hp, t.health = some hp → healthIsAlive hp = false →
      w.applyDamage aId tId dmg turn = w) ∧
    (∀ hp, t.health = some hp → 0 < hp → 0 < dmg →
      (w.applyDamage aId tId dmg turn).getEntity tId
        = some { t with health := some (healthApplyDamage hp dmg) } ∧
      (w.applyDamage aId tId dmg turn).map = w.map ∧
      (w.applyDamage aId tId dmg turn).entityOrder = w.entityOrder ∧
      (w.applyDamage aId tId dmg turn).eventLog
        = w.eventLog
          ++ (turn, Event.unitAttacked aId tId dmg (healthHitPoints (healthApplyDamage hp dmg)))
          :: (if healthIsAlive (healthApplyDamage hp dmg) then []
              else [(turn, Event.unitDied tId)]) ∧
      (w.applyDamage aId tId dmg turn).pendingRemoval
        = (if healthIsAlive (healthApplyDamage hp dmg) then w.pendingRemoval
           else insertS w.pendingRemoval tId)) := by
  refine ⟨?_, ?_, ?_, ?_⟩
  · intro hd
    unfold World.applyDamage
    rw [if_pos hd]
  · intro hnone
    unfold World.applyDamage
    split
    · rfl
    · rw [hT]
      dsimp only
      rw [hnone]
  · intro hp hh hdead
    unfold World.applyDamage
    split
    · rfl
    · rw [hT]
      dsimp only
      rw [hh]
      dsimp only
      rw [hdead]
      rfl
  · intro hp hh halive hdmg
    have h := applyDamage_effect w aId tId dmg turn t hp hT hh halive hdmg
    exact ⟨h.1, h.2.1, h.2.2.1, h.2.2.2.1, h.2.2.2.2.1⟩

/-- A 10×10 world: live swordsman 1 at (0,0), live swordsman 2 at (1,0). -/
def wC6 : World :=
  { map := { width := 10, height := 10,
             unitPositions := [(1, ⟨0, 0⟩), (2, ⟨1, 0⟩)],
             blockedPositions := [⟨0, 0⟩, ⟨1, 0⟩] },
    entities := [(1, makeSwordsman 1 ⟨0, 0⟩ 10 5), (2, makeSwordsman 2 ⟨1, 0⟩ 10 5)],
    entityOrder := [1, 2] }

/-- C6 witness: a lethal 10-damage hit on unit 2 emits the damage event with
resulting hp 0, then the death event, and schedules deferred removal. -/
theorem applyDamage_contract_witness :
    (wC6.applyDamage 1 2 (-4) 3 = wC6) ∧
    (wC6.applyDamage 1 2 10 3).eventLog
      = [(3, Event.unitAttacked 1 2 10 0), (3, Event.unitDied 2)] ∧
    (wC6.applyDamage 1 2 10 3).pendingRemoval = [2] ∧
    (wC6.applyDamage 1 2 10 3).entityOrder = [1, 2] := by
  have h := applyDamage_contract wC6 1 2 (-4) 3 (makeSwordsman 2 ⟨1, 0⟩ 10 5) (by decide)
  have h2 := applyDamage_contract wC6 1 2 10 3 (makeSwordsman 2 ⟨1, 0⟩ 10 5) (by decide)
  obtain ⟨-, -, -, heff⟩ := h2
  obtain ⟨hreg, hmap, hord, hlog, hpend⟩ :=
    heff ((10 : Nat) : Int) (by decide) (by decide) (by decide)
  refine ⟨h.1 (by decide), ?_, ?_, ?_⟩
  · rw [hlog]
    decide
  · rw [hpend]
    decide
  · rw [hord]
    decide

/-- C8: no attack path checks the attacker's own liveness — a dead attacker
(health counter 0, still registered before deferred removal is flushed)
holding a melee attack at Chebyshev distance exactly 1 from a living target
succeeds in `World::executeAttack`, and the damage is applied to the
target. -/
theorem dead_attacker_melee_hits (w : World) (attackerId targetId turn damage : Nat)
    (ea et : Entity) (hpT : Int)
    (hA : w.getEntity attackerId = some ea)
    (hAdead : ea.health = some 0)
    (hAatt : ea.attacks = [.melee damage])
    (hT : w.getEntity targetId = some et)
    (hThp : et.health = some hpT)
    (hTalive : 0 < hpT)
    (hdist : distanceTo ea.pos et.pos = 1)
    (hdmg : 0 < damage) :
    ea.isAlive = false ∧
    (w.executeAttack attackerId targetId turn (some .Melee)).1 = true ∧
    (w.executeAttack attackerId targetId turn (some .Melee)).2.1.getEntity targetId
      = some { et with health := some (healthApplyDamage hpT (damage : Int)) } := by
  have hTAlive : et.isAlive = true := by
    unfold Entity.isAlive
    rw [hThp]
    unfold healthIsAlive
    exact decide_eq_true hTalive
  have hattack :
      (AttackStrat.melee damage).attack w attackerId targetId turn
        = (true, w.applyDamage attackerId targetId (damage : Int) turn) := by
    unfold AttackStrat.attack
    rw [hA, hT]
    dsimp only
    rw [hTAlive, hdist]
    rfl
  have hfilt :
      attemptAttacksFiltered w attackerId targetId turn AttackType.Melee
          [AttackStrat.melee damage]
        = (true, w.applyDamage attackerId targetId (damage : Int) turn, [AttackType.Melee]) := by
    have hne : ¬((AttackStrat.melee damage).type ≠ AttackType.Melee) := fun hc => hc rfl
    unfold attemptAttacksFiltered
    rw [if_neg hne, hattack]
    rfl
  have hexec :
      w.executeAttack attackerId targetId turn (some .Melee)
        = (true, w.applyDamage attackerId targetId (damage : Int) turn, [.Melee]) := by
    unfold World.executeAttack
    rw [hA]
    dsimp only
    rw [hAatt, hfilt]
    rfl
  have heff := applyDamage_effect w attackerId targetId (damage : Int) turn et hpT hT hThp
    hTalive (by exact_mod_cast hdmg)
  refine ⟨?_, ?_, ?_⟩
  · unfold Entity.isAlive
    rw [hAdead]
    rfl
  · rw [hexec]
  · rw [hexec]
    exact heff.1

/-- A 10×10 world: dead swordsman 1 (hp counter 0, still registered) at
(0,0), live swordsman 2 at (1,0). -/
def wC8 : World :=
  { map := { width := 10, height := 10,
             unitPositions := [(1, ⟨0, 0⟩), (2, ⟨1, 0⟩)],
             blockedPositions := [⟨0, 0⟩, ⟨1, 0⟩] },
    entities := [(1, { makeSwordsman 1 ⟨0, 0⟩ 10 5 with health := some 0 }),
                 (2, makeSwordsman 2 ⟨1, 0⟩ 10 5)],
    entityOrder := [1, 2],
    pendingRemoval := [1] }

/-- C8 witness: in `wC8` the dead unit 1 successfully melee-attacks unit 2,
whose hp drops from 10 to 5. -/
theorem dead_attacker_melee_hits_witness :
    ({ makeSwordsman 1 ⟨0, 0⟩ 10 5 with health := some 0 } : Entity).isAlive = false ∧
    (wC8.executeAttack 1 2 7 (some .Melee)).1 = true ∧
    (wC8.executeAttack 1 2 7 (some .Melee)).2.1.getEntity 2
      = some { makeSwordsman 2 ⟨1, 0⟩ 10 5 with health := some 5 } := by
  have h := dead_attacker_melee_hits wC8 1 2 7 5
    ({ makeSwordsman 1 ⟨0, 0⟩ 10 5 with health := some 0 }) (makeSwordsman 2 ⟨1, 0⟩ 10 5)
    ((10 : Nat) : Int) (by decide) rfl rfl (by decide) rfl (by decide) (by decide) (by decide)
  exact ⟨h.1, h.2.1, by rw [h.2.2]; decide⟩

/-! ### C3: terrain movement stepping -/

lemma natAbs_mul_sgn_le (i : Nat) (d : Int) : ((i : Int) * sgn d).natAbs ≤ i := by
  unfold sgn
  split
  · simp
  · split
    · simp
    · simp [Int.natAbs_mul]

/-- Closed form of the `stepTowards` loop when the break condition (both
coordinates equal the target) never fires. -/
lemma stepLoop_eq (tx ty : Nat) (dx dy : Int) (k : Nat) :
    ∀ (nx ny : Int),
      (∀ i : Nat, i < k → ¬(nx + i * dx = (tx : Int) ∧ ny + i * dy = (ty : Int))) →
      stepLoop tx ty dx dy k nx ny = (nx + k * dx, ny + k * dy) := by
  induction k with
  | zero =>
    intro nx ny _
    simp [stepLoop]
  | succ n ih =>
    intro nx ny h
    unfold stepLoop
    rw [if_neg (by simpa using h 0 (Nat.succ_pos n))]
    rw [ih (nx + dx) (ny + dy) ?_]
    · simp only [Prod.mk.injEq]
      constructor <;> push_cast <;> ring
    · intro i hi hcon
      apply h (i + 1) (by omega)
      constructor
      · have hr : nx + (((i : Int) + 1)) * dx = nx + dx + (i : Int) * dx := by ring
        push_cast
        rw [hr]
        exact hcon.1
      · have hr : ny + (((i : Int) + 1)) * dy = ny + dy + (i : Int) * dy := by ring
        push_cast
        rw [hr]
        exact hcon.2

/-- When the target is farther (in Chebyshev distance) than the step
budget, `stepTowards` adds `step · sgn(Δ)` to BOTH coordinates (clamping the
result below at 0). -/
lemma stepTowards_closed (fromPos target : Position) (step : Nat)
    (hgt : step < distanceTo fromPos target) :
    stepTowards fromPos target step =
      ⟨(max ((fromPos.x : Int) + step * sgn ((target.x : Int) - fromPos.x)) 0).toNat,
       (max ((fromPos.y : Int) + step * sgn ((target.y : Int) - fromPos.y)) 0).toNat⟩ := by
  have hne : fromPos ≠ target := by
    intro hcon
    rw [hcon] at hgt
    simp [distanceTo] at hgt
  unfold stepTowards
  rw [if_neg hne]
  dsimp only
  rw [stepLoop_eq]
  intro i hi hcon
  have hx : ((i : Int)) * sgn ((target.x : Int) - fromPos.x)
      = (target.x : Int) - fromPos.x := by linarith [hcon.1]
  have hy : ((i : Int)) * sgn ((target.y : Int) - fromPos.y)
      = (target.y : Int) - fromPos.y := by linarith [hcon.2]
  have hax : ((target.x : Int) - fromPos.x).natAbs ≤ i := by
    rw [← hx]
    exact natAbs_mul_sgn_le i _
  have hay : ((target.y : Int) - fromPos.y).natAbs ≤ i := by
    rw [← hy]
    exact natAbs_mul_sgn_le i _
  have hdist : distanceTo fromPos target ≤ i := by
    unfold distanceTo
    rw [show (fromPos.x : Int) - target.x = -((target.x : Int) - fromPos.x) from by ring,
        show (fromPos.y : Int) - target.y = -((target.y : Int) - fromPos.y) from by ring,
        Int.natAbs_neg, Int.natAbs_neg]
    omega
  omega

/-- C3 (amended): terrain movement is a no-op returning false when already at
the target or the step size is 0; when the Chebyshev distance to the target
is within the step size the computed destination is the target itself;
otherwise the destination adds `step · sgn(Δ)` to BOTH coordinates
simultaneously (clamped below at 0) — so a coordinate whose own delta is
smaller than the step size is moved PAST its target coordinate; the move is
delegated to `World::tryMove` with blocking enforced. -/
theorem terrainMove_behavior (w : World) (id : Nat) (target : Position) (turn : Nat)
    (e : Entity) (step : Nat)
    (hE : w.getEntity id = some e) (hm : e.movementStep = some step) :
    ((e.pos = target ∨ step = 0) → w.moveEntityTowards id target turn = (false, w)) ∧
    (e.pos ≠ target → step ≠ 0 → distanceTo e.pos target ≤ step →
      w.moveEntityTowards id target turn = w.tryMove id target turn false) ∧
    (e.pos ≠ target → step ≠ 0 → step < distanceTo e.pos target →
      w.moveEntityTowards id target turn
        = w.tryMove id
            ⟨(max ((e.pos.x : Int) + step * sgn ((target.x : Int) - e.pos.x)) 0).toNat,
             (max ((e.pos.y : Int) + step * sgn ((target.y : Int) - e.pos.y)) 0).toNat⟩
            turn false) := by
  have hunf : w.moveEntityTowards id target turn = terrainMove w id step target turn := by
    unfold World.moveEntityTowards
    rw [hE]
    dsimp only
    rw [hm]
  refine ⟨?_, ?_, ?_⟩
  · intro hor
    rw [hunf]
    unfold terrainMove
    rw [hE]
    dsimp only
    rw [if_pos]
    rcases hor with h1 | h1 <;> simp [h1]
  · intro hpos hstep hle
    rw [hunf]
    unfold terrainMove
    rw [hE]
    dsimp only
    rw [if_neg (by simp [hpos, hstep]), if_neg (by omega)]
  · intro hpos hstep hgt
    rw [hunf]
    unfold terrainMove
    rw [hE]
    dsimp only
    rw [if_neg (by simp [hpos, hstep]), if_pos (by omega)]
    rw [stepTowards_closed e.pos target step hgt]

/-- The entity used by the C3 counterexample: terrain movement with step
size 3 at (0,0). -/
def entityC3 : Entity :=
  { id := 1, pos := ⟨0, 0⟩, typeName := "Swordsman",
    health := some 10, movementStep := some 3, attacks := [], ai := none }

/-- A 10×10 world holding only `entityC3`. -/
def wC3 : World :=
  { map := { width := 10, height := 10,
             unitPositions := [(1, ⟨0, 0⟩)], blockedPositions := [⟨0, 0⟩] },
    entities := [(1, entityC3)],
    entityOrder := [1] }

/-- C3 counterexample: marching the step-3 entity from (0,0) toward (1,5)
moves it to (3,3) — the x coordinate starts at 0, the target's x is 1, and
the destination's x is 3: the axis is advanced PAST the target coordinate
rather than stopping at it. -/
theorem terrainMove_overshoot_counterexample :
    (wC3.moveEntityTowards 1 ⟨1, 5⟩ 1).1 = true ∧
    ((wC3.moveEntityTowards 1 ⟨1, 5⟩ 1).2.getEntity 1).map Entity.pos = some ⟨3, 3⟩ ∧
    (wC3.getEntity 1).map Entity.pos = some ⟨0, 0⟩ ∧
    ¬(((3 : Nat) ≤ 1) ∨ ((1 : Nat) ≤ 3 ∧ (3 : Nat) ≤ 0)) := by decide

/-- C3 witness: the amended far-target branch at the counterexample input. -/
theorem terrainMove_behavior_witness :
    wC3.moveEntityTowards 1 ⟨1, 5⟩ 1
      = wC3.tryMove 1
          ⟨(max ((0 : Int) + 3 * sgn ((1 : Int) - 0)) 0).toNat,
           (max ((0 : Int) + 3 * sgn ((5 : Int) - 0)) 0).toNat⟩ 1 false :=
  (terrainMove_behavior wC3 1 ⟨1, 5⟩ 1 entityC3 3 rfl rfl).2.2
    (by decide) (by decide) (by decide)

/-! ### C5: march and AI mutual exclusion per unit per turn -/

lemma isAlive_setPos (e : Entity) (p : Position) :
    ({ e with pos := p } : Entity).isAlive = e.isAlive := rfl

lemma ai_setPos (e : Entity) (p : Position) :
    ({ e with pos := p } : Entity).ai = e.ai := rfl

/-- C5: in the per-unit body of `Simulation::processTurn`, for a living unit
holding an AI, the AI is invoked exactly when the unit has no active march
target or its march movement step produced no movement; in particular a
unit whose march step moved it never has its AI invoked in the same
turn.  The `marched` flag records precisely the result of the march movement
step. -/
theorem march_ai_exclusive (σ : List Nat → List Nat) (s : Simulation) (id : Nat)
    (e : Entity)
    (hE : s.world.getEntity id = some e)
    (halive : e.isAlive = true)
    (hai : e.ai.isSome = true) :
    ((processUnit σ s id).2.2.aiInvoked
       = (!(lookupA s.marchTargets id).isSome || !(processUnit σ s id).2.2.marched)) ∧
    (∀ target, lookupA s.marchTargets id = some target →
      (processUnit σ s id).2.2.marched
        = (s.world.moveEntityTowards id target s.currentTurn).1) ∧
    ((processUnit σ s id).2.2.marched = true →
      (processUnit σ s id).2.2.aiInvoked = false) := by
  cases hL : lookupA s.marchTargets id with
  | none =>
    have hinfo : (processUnit σ s id).2.2 = { aiInvoked := true } := by
      unfold processUnit
      rw [hE]
      dsimp only
      rw [if_neg (by simp [halive]), hL]
      dsimp only
      rw [hE]
      simp [hai, halive]
    rw [hinfo]
    refine ⟨by simp, ?_, ?_⟩
    · intro t ht
      exact absurd ht (by simp)
    · intro hcon
      exact absurd hcon (by simp)
  | some target =>
    cases hmv : s.world.moveEntityTowards id target s.currentTurn with
    | mk marched w' =>
      obtain ⟨p, hp0⟩ := moveEntityTowards_getEntity_self s.world id target s.currentTurn e hE
      rw [hmv] at hp0
      have hinfo : ∃ mc, (processUnit σ s id).2.2
          = { hadTarget := true, marched := marched, marchCompleted := mc,
              aiInvoked := !marched } := by
        unfold processUnit
        rw [hE]
        dsimp only
        rw [if_neg (by simp [halive]), hL]
        dsimp only
        rw [hmv]
        dsimp only
        rw [hp0]
        dsimp only
        by_cases hpt : p = target
        · refine ⟨true, ?_⟩
          rw [if_pos hpt]
          dsimp only
          cases marched with
          | true => simp
          | false =>
            simp only [Bool.not_false, if_true]
            rw [getEntity_logEvent, hp0]
            dsimp only
            rw [ai_setPos, isAlive_setPos]
            simp [hai, halive]
        · refine ⟨false, ?_⟩
          rw [if_neg hpt]
          dsimp only
          cases marched with
          | true => simp
          | false =>
            simp only [Bool.not_false, if_true]
            rw [hp0]
            dsimp only
            rw [ai_setPos, isAlive_setPos]
            simp [hai, halive]
      obtain ⟨mc, hinfo⟩ := hinfo
      rw [hinfo]
      refine ⟨by simp, ?_, ?_⟩
      · intro t ht
        injection ht with ht
        subst ht
        rw [hmv]
      · intro hmarched
        dsimp only at hmarched ⊢
        rw [hmarched]
        rfl

/-- A 10×10 world with marching swordsman 1 (target (5,5)) at turn 2. -/
def simC5 : Simulation :=
  { world :=
      { map := { width := 10, height := 10,
                 unitPositions := [(1, ⟨0, 0⟩)], blockedPositions := [⟨0, 0⟩] },
        entities := [(1, makeSwordsman 1 ⟨0, 0⟩ 10 5)],
        entityOrder := [1] },
    currentTurn := 2,
    marchTargets := [(1, ⟨5, 5⟩)] }

/-- C5 witness: in `simC5` the march step moves the unit, so its AI is not
invoked that turn. -/
theorem march_ai_exclusive_witness :
    (processUnit (fun l => l) simC5 1).2.2.aiInvoked
      = (!(lookupA simC5.marchTargets 1).isSome
          || !(processUnit (fun l => l) simC5 1).2.2.marched) ∧
    (processUnit (fun l => l) simC5 1).2.2.marched = true ∧
    (processUnit (fun l => l) simC5 1).2.2.aiInvoked = false := by
  have h := march_ai_exclusive (fun l => l) simC5 1 (makeSwordsman 1 ⟨0, 0⟩ 10 5)
    (by decide) (by decide) (by decide)
  have hm : (processUnit (fun l => l) simC5 1).2.2.marched = true := by decide
  exact ⟨h.1, hm, h.2.2 hm⟩

/-! ### C10: registry/grid position coherence -/

/-- Position coherence: the registry and the grid agree — an entity is
registered exactly when it has a grid entry, and the grid entry equals the
entity's own stored position. -/
def coherent (w : World) : Prop :=
  ∀ id, (w.getEntity id).map Entity.pos = w.map.lookupPos id

lemma lookupA_mem {α : Type} (l : List (Nat × α)) (id : Nat) (v : α)
    (h : lookupA l id = some v) : (id, v) ∈ l := by
  induction l with
  | nil => exact absurd h (by simp [lookupA])
  | cons hd t ih =>
    obtain ⟨k, w⟩ := hd
    by_cases hk : k = id
    · subst hk
      rw [lookupA, if_pos rfl] at h
      injection h with h
      subst h
      exact List.mem_cons_self _ _
    · rw [lookupA, if_neg hk] at h
      exact List.mem_cons_of_mem _ (ih h)

/-- Decidable sufficient condition for `coherent` on a concrete world. -/
lemma coherent_of_checks (w : World)
    (h1 : w.entities.all (fun p => decide (w.map.lookupPos p.1 = some p.2.pos)) = true)
    (h2 : w.map.unitPositions.all (fun q => (w.getEntity q.1).isSome) = true) :
    coherent w := by
  intro id
  cases hg : w.getEntity id with
  | some e =>
    have hmem : (id, e) ∈ w.entities := lookupA_mem _ _ _ hg
    have := (List.all_eq_true.mp h1) _ hmem
    simp only [decide_eq_true_eq] at this
    simp [this]
  | none =>
    cases hp : w.map.lookupPos id with
    | none => rfl
    | some q =>
      have hmem : (id, q) ∈ w.map.unitPositions := lookupA_mem _ _ _ hp
      have := (List.all_eq_true.mp h2) _ hmem
      rw [hg] at this
      exact absurd this (by simp)

lemma placeUnit_unitPositions (m m' : Map) (id : Nat) (pos : Position) (bg : Bool)
    (h : m.placeUnit id pos bg = some m') :
    m'.unitPositions = setA m.unitPositions id pos := by
  unfold Map.placeUnit at h
  split at h
  · exact absurd h (by simp)
  · split at h
    · exact absurd h (by simp)
    · split at h
      · exact absurd h (by simp)
      · injection h with h
        subst h
        cases bg with
        | true => rfl
        | false => rfl

lemma moveUnit_unitPositions (m m' : Map) (id : Nat) (newPos : Position)
    (h : m.moveUnit id newPos = some m') :
    m'.unitPositions = setA m.unitPositions id newPos := by
  unfold Map.moveUnit at h
  split at h
  · exact absurd h (by simp)
  · split at h
    · exact absurd h (by simp)
    · split at h
      · split at h
        · exact absurd h (by simp)
        · injection h with h
          subst h
          rfl
      · injection h with h
        subst h
        rfl

lemma removeUnit_lookupPos (m : Map) (id j : Nat) :
    (m.removeUnit id).lookupPos j = if j = id then none else m.lookupPos j := by
  unfold Map.removeUnit
  cases hp : m.lookupPos id with
  | none =>
    dsimp only
    by_cases hj : j = id
    · subst hj
      rw [if_pos rfl]
      exact hp
    · rw [if_neg hj]
  | some pos =>
    dsimp only
    unfold Map.lookupPos
    by_cases hj : j = id
    · subst hj
      rw [if_pos rfl]
      exact lookupA_eraseA_self _ _
    · rw [if_neg hj]
      exact lookupA_eraseA_ne _ _ _ hj

lemma removeEntity_getEntity (w : World) (id i : Nat) :
    (w.removeEntity id).getEntity i = if i = id then none else w.getEntity i := by
  unfold World.removeEntity World.getEntity
  dsimp only
  by_cases hj : i = id
  · subst hj
    rw [if_pos rfl]
    exact lookupA_eraseA_self _ _
  · rw [if_neg hj]
    exact lookupA_eraseA_ne _ _ _ hj

lemma coherent_removeEntity (w : World) (id : Nat) (h : coherent w) :
    coherent (w.removeEntity id) := by
  intro i
  show ((w.removeEntity id).getEntity i).map Entity.pos = (w.map.removeUnit id).lookupPos i
  rw [removeEntity_getEntity, removeUnit_lookupPos]
  by_cases hj : i = id
  · rw [if_pos hj, if_pos hj]
    rfl
  · rw [if_neg hj, if_neg hj]
    exact h i

lemma coherent_tryMove (w : World) (id : Nat) (d : Position) (turn : Nat) (ib : Bool)
    (h : coherent w) : coherent ((w.tryMove id d turn ib).2) := by
  unfold World.tryMove
  cases hE : w.getEntity id with
  | none => exact h
  | some e =>
    dsimp only
    split
    · exact h
    · split
      · exact h
      · split
        · exact h
        · split
          · exact h
          · cases hm : w.map.moveUnit id d with
            | none => exact h
            | some m =>
              intro i
              dsimp only
              have hmu := moveUnit_unitPositions _ _ _ _ hm
              have hlp : (if e.blocksGround then m.setPositionBlocked d true
                  else m).lookupPos i = lookupA (setA w.map.unitPositions id d) i := by
                cases e.blocksGround with
                | true =>
                  show m.lookupPos i = _
                  unfold Map.lookupPos
                  rw [hmu]
                | false =>
                  show m.lookupPos i = _
                  unfold Map.lookupPos
                  rw [hmu]
              refine Eq.trans ?_ hlp.symm
              rw [getEntity_logEvent]
              by_cases hi : i = id
              · subst hi
                rw [getEntity_setEntity_self, lookupA_setA_self]
                rfl
              · rw [getEntity_setEntity_ne _ _ _ _ hi, lookupA_setA_ne _ _ _ _ hi]
                exact h i

lemma coherent_addEntity (w w' : World) (e : Entity) (h : coherent w)
    (hfresh : w.getEntity e.id = none) (hadd : w.addEntity e = .ok w') :
    coherent w' := by
  unfold World.addEntity at hadd
  cases hplace : w.map.placeUnit e.id e.pos e.blocksGround with
  | none => rw [hplace] at hadd; exact absurd hadd (by simp)
  | some m =>
    rw [hplace] at hadd
    dsimp only at hadd
    rw [show (lookupA w.entities e.id).isSome = false from by
      unfold World.getEntity at hfresh; rw [hfresh]; rfl] at hadd
    simp only [Bool.false_eq_true, if_false] at hadd
    injection hadd with hadd
    subst hadd
    intro i
    rw [getEntity_logEvent]
    have hup := placeUnit_unitPositions _ _ _ _ _ hplace
    show (lookupA (w.entities ++ [(e.id, e)]) i).map Entity.pos = m.lookupPos i
    unfold Map.lookupPos
    rw [hup]
    by_cases hi : i = e.id
    · subst hi
      rw [lookupA_append_of_none _ _ _ hfresh, lookupA_setA_self]
      simp [lookupA]
    · rw [lookupA_setA_ne _ _ _ _ hi]
      cases hx : lookupA w.entities i with
      | none =>
        rw [lookupA_append_of_none _ _ _ hx]
        have hsing : lookupA [(e.id, e)] i = none := by
          rw [lookupA, if_neg (fun hc => hi hc.symm)]
          rfl
        rw [hsing]
        have := h i
        unfold World.getEntity Map.lookupPos at this
        rw [hx] at this
        exact this
      | some v =>
        rw [lookupA_append_of_isSome _ _ _ (by rw [hx]; rfl), hx]
        have := h i
        unfold World.getEntity Map.lookupPos at this
        rw [hx] at this
        exact this

lemma coherent_flush (w : World) (h : coherent w) :
    coherent w.flushPendingRemovals := by
  unfold World.flushPendingRemovals
  dsimp only
  have hbase : coherent { w with pendingRemoval := [] } := h
  generalize { w with pendingRemoval := ([] : List Nat) } = w0 at hbase
  generalize w.pendingRemoval = ids
  induction ids generalizing w0 with
  | nil => exact hbase
  | cons i t ih => exact ih _ (coherent_removeEntity _ _ hbase)

/-- C10 (amended): starting from a coherent world, `tryMove`, `removeEntity`
and `flushPendingRemovals` preserve registry/grid position coherence, and
`addEntity` preserves it provided the added entity's id is not already
registered (the duplicate-id contract the Simulation spawns enforce). -/
theorem world_position_coherence (w w' : World) (e : Entity) (id : Nat) (d : Position)
    (turn : Nat) (ib : Bool) :
    (coherent w → w.getEntity e.id = none → w.addEntity e = .ok w' → coherent w') ∧
    (coherent w → coherent ((w.tryMove id d turn ib).2)) ∧
    (coherent w → coherent (w.removeEntity id)) ∧
    (coherent w → coherent w.flushPendingRemovals) :=
  ⟨fun h hf ha => coherent_addEntity w w' e h hf ha,
   coherent_tryMove w id d turn ib,
   coherent_removeEntity w id,
   coherent_flush w⟩

/-- A coherent world holding swordsman 1 at (0,0) on a 5×5 map. -/
def wC10 : World :=
  { map := { width := 5, height := 5,
             unitPositions := [(1, ⟨0, 0⟩)], blockedPositions := [⟨0, 0⟩] },
    entities := [(1, makeSwordsman 1 ⟨0, 0⟩ 10 5)],
    entityOrder := [1] }

/-- The world produced by handing `addEntity` a duplicate id at a free
cell. -/
def wC10' : World :=
  match wC10.addEntity (makeSwordsman 1 ⟨2, 2⟩ 10 5) with
  | .ok w' => w'
  | .error _ => wC10

/-- C10 counterexample: `addEntity` called with an id already registered (at
a free cell) succeeds — the grid entry for id 1 is overwritten to (2,2)
while the registry keeps the old entity at (0,0) — so the coherence
invariant does not survive every `addEntity` call. -/
theorem world_position_coherence_counterexample :
    coherent wC10 ∧
    wC10.addEntity (makeSwordsman 1 ⟨2, 2⟩ 10 5) = .ok wC10' ∧
    ¬ coherent wC10' := by
  refine ⟨coherent_of_checks wC10 (by decide) (by decide), rfl, ?_⟩
  intro h
  exact absurd (h 1) (by decide)

/-- C10 witness: coherence holds after a concrete fresh-id `addEntity` and
after a concrete `tryMove`. -/
theorem world_position_coherence_witness :
    coherent ((wC6.tryMove 1 ⟨0, 1⟩ 2 false).2) ∧
    (∀ w', wC10.addEntity (makeSwordsman 2 ⟨2, 2⟩ 10 5) = .ok w' → coherent w') := by
  constructor
  · exact (world_position_coherence wC6 wC6 (makeSwordsman 2 ⟨2, 2⟩ 10 5) 1 ⟨0, 1⟩ 2
      false).2.1 (coherent_of_checks wC6 (by decide) (by decide))
  · intro w' hadd
    exact (world_position_coherence wC10 w' (makeSwordsman 2 ⟨2, 2⟩ 10 5) 1 ⟨0, 1⟩ 2
      false).1 (coherent_of_checks wC10 (by decide) (by decide)) (by decide) hadd

/-! ### C2: hunter AI attack ordering -/

/-- The original claim's ordering property on an attempt trace: before any
melee attempt, EVERY enemy in the list must already have received a ranged
attempt. -/
def noMeleeBeforeAllRanged (tr : List (Nat × AttackType)) (enemies : List Nat) : Bool :=
  (List.range tr.length).all fun i =>
    match tr.get? i with
    | some (_, .Melee) =>
      enemies.all fun e =>
        (List.range i).any fun j => decide (tr.get? j = some (e, AttackType.Ranged))
    | _ => true

/-- The per-enemy ordering property on an attempt trace: every melee attempt
against an enemy is preceded by a ranged attempt against that SAME enemy
(`seen` accumulates the enemies already tried with ranged). -/
def meleeAfterRanged (seen : List Nat) : List (Nat × AttackType) → Bool
  | [] => true
  | (e, .Ranged) :: rest => meleeAfterRanged (e :: seen) rest
  | (e, .Melee) :: rest => seen.contains e && meleeAfterRanged seen rest

/-- The enemies holding a ranged attempt in the trace, accumulated onto
`seen`. -/
def seenAfter (seen : List Nat) : List (Nat × AttackType) → List Nat
  | [] => seen
  | (e, .Ranged) :: rest => seenAfter (e :: seen) rest
  | (_, .Melee) :: rest => seenAfter seen rest

/-- The C2 counterexample world: hunter 1 at (0,0) (agility 3, strength 2,
range 5), swordsman 2 adjacent at (1,0), swordsman 3 at (4,0) — inside the
ranged band but unreachable because unit 2 spoils the adjacency
clearance. -/
def wC2 : World :=
  { map := { width := 10, height := 10,
             unitPositions := [(1, ⟨0, 0⟩), (2, ⟨1, 0⟩), (3, ⟨4, 0⟩)],
             blockedPositions := [⟨0, 0⟩, ⟨1, 0⟩, ⟨4, 0⟩] },
    entities := [(1, makeHunter 1 ⟨0, 0⟩ 10 3 2 5),
                 (2, makeSwordsman 2 ⟨1, 0⟩ 10 5),
                 (3, makeSwordsman 3 ⟨4, 0⟩ 10 5)],
    entityOrder := [1, 2, 3] }

/-- C2 counterexample: with the identity shuffle the hunter's update
attempts ranged then MELEE against enemy 2 (the melee succeeds), and enemy 3
is never tried with ranged — a melee attack is attempted before every enemy
has been tried with ranged. -/
theorem hunter_ranged_first_counterexample :
    gatherEnemies (fun l => l) wC2 1 = [2, 3] ∧
    (hunterUpdate wC2 1 1 [2, 3]).1 = true ∧
    (hunterUpdate wC2 1 1 [2, 3]).2.2 = [(2, .Ranged), (2, .Melee)] ∧
    noMeleeBeforeAllRanged [(2, .Ranged), (2, .Melee)] [2, 3] = false := by decide

lemma seenAfter_append (seen : List Nat) (xs ys : List (Nat × AttackType)) :
    seenAfter seen (xs ++ ys) = seenAfter (seenAfter seen xs) ys := by
  induction xs generalizing seen with
  | nil => rfl
  | cons hd t ih =>
    obtain ⟨e, ty⟩ := hd
    cases ty <;> simp [seenAfter, ih]

lemma meleeAfterRanged_append (seen : List Nat) (xs ys : List (Nat × AttackType)) :
    meleeAfterRanged seen (xs ++ ys)
      = (meleeAfterRanged seen xs && meleeAfterRanged (seenAfter seen xs) ys) := by
  induction xs generalizing seen with
  | nil => simp [meleeAfterRanged, seenAfter]
  | cons hd t ih =>
    obtain ⟨e, ty⟩ := hd
    cases ty with
    | Melee => simp [meleeAfterRanged, seenAfter, ih, Bool.and_assoc]
    | Ranged => simp [meleeAfterRanged, seenAfter, ih]

lemma mem_seenAfter (tr : List (Nat × AttackType)) :
    ∀ (seen : List Nat) (x : Nat), x ∈ seen → x ∈ seenAfter seen tr := by
  induction tr with
  | nil => exact fun _ _ h => h
  | cons hd t ih =>
    intro seen x h
    obtain ⟨e, ty⟩ := hd
    cases ty with
    | Melee => exact ih seen x h
    | Ranged => exact ih (e :: seen) x (List.mem_cons_of_mem _ h)

lemma tags_subset_meleeAfterRanged (tr : List (Nat × AttackType)) :
    ∀ seen : List Nat, (∀ x ∈ tr, x.1 ∈ seen) → meleeAfterRanged seen tr = true := by
  induction tr with
  | nil => exact fun _ _ => rfl
  | cons hd t ih =>
    intro seen hsub
    obtain ⟨e, ty⟩ := hd
    cases ty with
    | Melee =>
      have he : e ∈ seen := hsub (e, .Melee) (List.mem_cons_self _ _)
      show (seen.contains e && meleeAfterRanged seen t) = true
      rw [ih seen (fun x hx => hsub x (List.mem_cons_of_mem _ hx))]
      simp [he]
    | Ranged =>
      show meleeAfterRanged (e :: seen) t = true
      exact ih (e :: seen) fun x hx =>
        List.mem_cons_of_mem _ (hsub x (List.mem_cons_of_mem _ hx))

/-- The attack list stored for an entity (attacks are never mutated by any
world operation). -/
def attacksOf (w : World) (id : Nat) : Option (List AttackStrat) :=
  (w.getEntity id).map Entity.attacks

lemma attacksOf_some (w : World) (id : Nat) (L : List AttackStrat)
    (h : attacksOf w id = some L) :
    ∃ a, w.getEntity id = some a ∧ a.attacks = L := by
  unfold attacksOf at h
  cases hg : w.getEntity id with
  | none => rw [hg] at h; exact absurd h (by simp)
  | some a =>
    rw [hg] at h
    refine ⟨a, rfl, ?_⟩
    injection h

lemma attacksOf_setEntity_healthUpd (w : World) (t : Nat) (tE : Entity) (hp' : Option Int)
    (hT : w.getEntity t = some tE) (i : Nat) :
    ((w.setEntity t { tE with health := hp' }).getEntity i).map Entity.attacks
      = (w.getEntity i).map Entity.attacks := by
  by_cases hi : i = t
  · subst hi
    rw [getEntity_setEntity_self, hT]
    rfl
  · rw [getEntity_setEntity_ne _ _ _ _ hi]

lemma attacksOf_applyDamage (w : World) (a t : Nat) (dmg : Int) (turn i : Nat) :
    attacksOf (w.applyDamage a t dmg turn) i = attacksOf w i := by
  unfold World.applyDamage
  split
  · rfl
  · cases hT : w.getEntity t with
    | none => rfl
    | some tE =>
      dsimp only
      cases hh : tE.health with
      | none => rfl
      | some hp =>
        dsimp only
        split
        · rfl
        · split
          · exact attacksOf_setEntity_healthUpd w t tE (some (healthApplyDamage hp dmg)) hT i
          · exact attacksOf_setEntity_healthUpd w t tE (some (healthApplyDamage hp dmg)) hT i

lemma attacksOf_attack (a : AttackStrat) (w : World) (s t turn i : Nat) :
    attacksOf ((a.attack w s t turn).2) i = attacksOf w i := by
  unfold AttackStrat.attack
  cases hS : w.getEntity s with
  | none => rfl
  | some self =>
    cases hT : w.getEntity t with
    | none => rfl
    | some target =>
      cases a with
      | melee dmg =>
        dsimp only
        split
        · rfl
        · split
          · rfl
          · exact attacksOf_applyDamage w s t _ turn i
      | ranged dmg mn mx req =>
        dsimp only
        split
        · rfl
        · split
          · rfl
          · split
            · rfl
            · split
              · rfl
              · exact attacksOf_applyDamage w s t _ turn i

lemma attacksOf_attemptAttacksFiltered (s t turn i : Nat) (f : AttackType) :
    ∀ (atks : List AttackStrat) (w : World),
      attacksOf ((attemptAttacksFiltered w s t turn f atks).2.1) i = attacksOf w i := by
  intro atks
  induction atks with
  | nil => exact fun _ => rfl
  | cons a rest ih =>
    intro w
    unfold attemptAttacksFiltered
    split
    · exact ih w
    · cases hA : a.attack w s t turn with
      | mk ok w' =>
        have hw' : attacksOf w' i = attacksOf w i := by
          rw [show w' = (a.attack w s t turn).2 from by rw [hA]]
          exact attacksOf_attack a w s t turn i
        cases ok with
        | true => exact hw'
        | false =>
          dsimp only
          cases hR : attemptAttacksFiltered w' s t turn f rest with
          | mk ok2 yz =>
            have h3 := ih w'
            rw [hR] at h3
            dsimp only at h3
            simp only [Bool.false_eq_true, if_false]
            rw [h3]
            exact hw'

lemma attacksOf_attemptAttacks (s t turn i : Nat) :
    ∀ (atks : List AttackStrat) (w : World),
      attacksOf ((attemptAttacks w s t turn atks).2.1) i = attacksOf w i := by
  intro atks
  induction atks with
  | nil => exact fun _ => rfl
  | cons a rest ih =>
    intro w
    unfold attemptAttacks
    cases hA : a.attack w s t turn with
    | mk ok w' =>
      have hw' : attacksOf w' i = attacksOf w i := by
        rw [show w' = (a.attack w s t turn).2 from by rw [hA]]
        exact attacksOf_attack a w s t turn i
      cases ok with
      | true => exact hw'
      | false =>
        dsimp only
        cases hR : attemptAttacks w' s t turn rest with
        | mk ok2 yz =>
          have h3 := ih w'
          rw [hR] at h3
          dsimp only at h3
          simp only [Bool.false_eq_true, if_false]
          rw [h3]
          exact hw'

lemma attacksOf_executeAttack (w : World) (aId tId turn i : Nat) (p : Option AttackType) :
    attacksOf ((w.executeAttack aId tId turn p).2.1) i = attacksOf w i := by
  unfold World.executeAttack
  cases hA : w.getEntity aId with
  | none => rfl
  | some attacker =>
    dsimp only
    cases p with
    | none =>
      dsimp only
      cases hR : attemptAttacks w aId tId turn attacker.attacks with
      | mk ok2 yz =>
        have := attacksOf_attemptAttacks aId tId turn i attacker.attacks w
        rw [hR] at this
        dsimp only
        exact this
    | some pt =>
      dsimp only
      cases hF : attemptAttacksFiltered w aId tId turn pt attacker.attacks with
      | mk ok1 yz1 =>
        have h1 := attacksOf_attemptAttacksFiltered aId tId turn i pt attacker.attacks w
        rw [hF] at h1
        cases ok1 with
        | true => exact h1
        | false =>
          dsimp only
          cases hR : attemptAttacks yz1.1 aId tId turn attacker.attacks with
          | mk ok2 yz2 =>
            have h2 := attacksOf_attemptAttacks aId tId turn i attacker.attacks yz1.1
            rw [hR] at h2
            dsimp only at h1 h2
            simp only [Bool.false_eq_true, if_false]
            rw [h2]
            exact h1

/-- Against an attacker whose declaration-order attack list is
`[melee, ranged]` (the hunter archetype), `executeAttack` with preferred
type Ranged records a Ranged attempt FIRST — whatever else it goes on to
attempt. -/
lemma executeAttack_hunter_ranged_head (w : World) (aId tId turn : Nat)
    (s d mn mx : Nat) (req : Bool) (attacker : Entity)
    (hA : w.getEntity aId = some attacker)
    (hatt : attacker.attacks = [.melee s, .ranged d mn mx req]) :
    ∃ rest, (w.executeAttack aId tId turn (some AttackType.Ranged)).2.2
      = AttackType.Ranged :: rest := by
  cases hr : (AttackStrat.ranged d mn mx req).attack w aId tId turn with
  | mk ok w' =>
    have hne1 : (AttackStrat.melee s).type ≠ AttackType.Ranged :=
      fun hc => AttackType.noConfusion hc
    have hne2 : ¬((AttackStrat.ranged d mn mx req).type ≠ AttackType.Ranged) :=
      fun hc => hc rfl
    have hfilt : attemptAttacksFiltered w aId tId turn AttackType.Ranged
        [.melee s, .ranged d mn mx req] = (ok, w', [AttackType.Ranged]) := by
      unfold attemptAttacksFiltered
      rw [if_pos hne1]
      unfold attemptAttacksFiltered
      rw [if_neg hne2, hr]
      cases ok <;> rfl
    cases ok with
    | true =>
      refine ⟨[], ?_⟩
      unfold World.executeAttack
      rw [hA]
      dsimp only
      rw [hatt, hfilt]
      rfl
    | false =>
      cases hR : attemptAttacks w' aId tId turn [.melee s, .ranged d mn mx req] with
      | mk ok2 yz =>
        refine ⟨yz.2, ?_⟩
        unfold World.executeAttack
        rw [hA]
        dsimp only
        rw [hatt, hfilt]
        simp only [Bool.false_eq_true, if_false]
        rw [hR]
        rfl

/-- Every attempt recorded by `tryAttackList` is tagged with one of the
enemies in the list. -/
lemma tags_of_tryAttackList (selfId turn : Nat) (pref : AttackType) :
    ∀ (es : List Nat) (w : World) (x : Nat × AttackType),
      x ∈ (tryAttackList w selfId turn (pref) es).2.2 → x.1 ∈ es := by
  intro es
  induction es with
  | nil =>
    intro w x hx
    exact absurd hx (by simp [tryAttackList])
  | cons e rest ih =>
    intro w x hx
    unfold tryAttackList at hx
    cases hX : w.executeAttack selfId e turn (some pref) with
    | mk ok yz =>
      rw [hX] at hx
      dsimp only at hx
      cases ok with
      | true =>
        simp only [if_true] at hx
        obtain ⟨ty, _, hxy⟩ := List.mem_map.mp hx
        rw [← hxy]
        exact List.mem_cons_self _ _
      | false =>
        simp only [Bool.false_eq_true, if_false] at hx
        cases hRec : tryAttackList yz.1 selfId turn pref rest with
        | mk ok2 yz2 =>
          rw [hRec] at hx
          dsimp only at hx
          rcases List.mem_append.mp hx with hl | hr
          · obtain ⟨ty, _, hxy⟩ := List.mem_map.mp hl
            rw [← hxy]
            exact List.mem_cons_self _ _
          · have := ih yz.1 x
            rw [hRec] at this
            exact List.mem_cons_of_mem _ (this hr)

/-- The ranged pass of the hunter AI: its trace never holds a melee attempt
against an enemy not already tried with ranged, and — when the whole pass
fails — every enemy of the list has been tried with ranged. -/
lemma tryAttackList_ranged_spec (selfId turn : Nat) (s d mn mx : Nat) (req : Bool) :
    ∀ (es : List Nat) (w : World) (seen : List Nat),
      attacksOf w selfId = some [.melee s, .ranged d mn mx req] →
      meleeAfterRanged seen (tryAttackList w selfId turn .Ranged es).2.2 = true ∧
      ((tryAttackList w selfId turn .Ranged es).1 = false →
        ∀ e ∈ es, e ∈ seenAfter seen (tryAttackList w selfId turn .Ranged es).2.2) := by
  intro es
  induction es with
  | nil =>
    intro w seen _
    constructor
    · rfl
    · intro _ e he
      exact absurd he (by simp)
  | cons e rest ih =>
    intro w seen hatt
    obtain ⟨attacker, hA, hAtt⟩ := attacksOf_some w selfId _ hatt
    obtain ⟨r0, hr0⟩ :=
      executeAttack_hunter_ranged_head w selfId e turn s d mn mx req attacker hA hAtt
    cases hX : w.executeAttack selfId e turn (some .Ranged) with
    | mk ok yz =>
      rw [hX] at hr0
      have hpres : attacksOf yz.1 selfId = some [.melee s, .ranged d mn mx req] := by
        have hp := attacksOf_executeAttack w selfId e turn selfId (some .Ranged)
        rw [hX] at hp
        dsimp only at hp
        rw [hp]
        exact hatt
      have hblock : meleeAfterRanged seen (yz.2.map (fun ty => (e, ty))) = true := by
        rw [hr0]
        dsimp only [List.map]
        show meleeAfterRanged (e :: seen) (r0.map fun ty => (e, ty)) = true
        apply tags_subset_meleeAfterRanged
        intro x hx
        obtain ⟨ty, _, hxy⟩ := List.mem_map.mp hx
        rw [← hxy]
        exact List.mem_cons_self _ _
      have hblock_seen : e ∈ seenAfter seen (yz.2.map (fun ty => (e, ty))) := by
        rw [hr0]
        dsimp only [List.map]
        show e ∈ seenAfter (e :: seen) (r0.map fun ty => (e, ty))
        exact mem_seenAfter _ _ _ (List.mem_cons_self _ _)
      unfold tryAttackList
      rw [hX]
      dsimp only
      cases ok with
      | true =>
        simp only [if_true]
        exact ⟨hblock, fun hcon => absurd hcon (by simp)⟩
      | false =>
        cases hRec : tryAttackList yz.1 selfId turn .Ranged rest with
        | mk ok2 yz2 =>
          have ihs := ih yz.1 (seenAfter seen (yz.2.map (fun ty => (e, ty)))) hpres
          rw [hRec] at ihs
          simp only [Bool.false_eq_true, if_false]
          constructor
          · rw [meleeAfterRanged_append]
            rw [hblock, ihs.1]
            rfl
          · intro hok2 e' he'
            rw [seenAfter_append]
            rcases List.mem_cons.mp he' with rfl | hmem
            · exact mem_seenAfter _ _ _ hblock_seen
            · exact ihs.2 hok2 e' hmem

/-- C2 (amended): per enemy, ranged is always attempted first — in the
hunter AI's attempt trace every melee attempt against an enemy is preceded
by a ranged attempt against that SAME enemy.  (The original global phase
ordering fails: `executeAttack`'s preferred-type fallback retries the whole
attack list, melee included, against the same enemy before the next enemy is
considered.) -/
theorem hunter_melee_preceded_by_ranged_same_enemy (w : World) (selfId turn : Nat)
    (enemies : List Nat) (s d mn mx : Nat) (req : Bool)
    (hatt : attacksOf w selfId = some [.melee s, .ranged d mn mx req]) :
    meleeAfterRanged [] (hunterUpdate w selfId turn enemies).2.2 = true := by
  have hspec := tryAttackList_ranged_spec selfId turn s d mn mx req enemies w [] hatt
  unfold hunterUpdate
  cases hP1 : tryAttackList w selfId turn .Ranged enemies with
  | mk ok1 yz1 =>
    rw [hP1] at hspec
    dsimp only at hspec ⊢
    cases ok1 with
    | true =>
      simp only [if_true]
      exact hspec.1
    | false =>
      cases hP2 : tryAttackList yz1.1 selfId turn .Melee enemies with
      | mk ok2 yz2 =>
        have htags := tags_of_tryAttackList selfId turn .Melee enemies yz1.1
        have hcover := hspec.2 rfl
        have h2nd : meleeAfterRanged (seenAfter [] yz1.2) yz2.2 = true := by
          apply tags_subset_meleeAfterRanged
          intro x hx
          refine hcover x.1 ?_
          have := htags x
          rw [hP2] at this
          exact this hx
        simp only [Bool.false_eq_true, if_false]
        cases ok2 with
        | true =>
          simp only [if_true]
          show meleeAfterRanged [] (yz1.2 ++ yz2.2) = true
          rw [meleeAfterRanged_append, hspec.1, h2nd]
          rfl
        | false =>
          simp only [Bool.false_eq_true, if_false]
          show meleeAfterRanged [] (yz1.2 ++ yz2.2) = true
          rw [meleeAfterRanged_append, hspec.1, h2nd]
          rfl

/-- C2 witness: the per-enemy ordering at the counterexample world. -/
theorem hunter_melee_after_ranged_witness :
    meleeAfterRanged [] (hunterUpdate wC2 1 1 [2, 3]).2.2 = true :=
  hunter_melee_preceded_by_ranged_same_enemy wC2 1 1 [2, 3] 2 3 2 5 true (by decide)

end SwBattle
